import Mathlib

/-!
Verification of the `agent_system` repository (agent.py, memory.py,
llm_provider.py): a shallow embedding of the data model and of the
operations the specification talks about, followed by theorems that settle
the specification's claims.

Conventions of the embedding:
* JSON values are modelled by the inductive `Json`; numbers are modelled as
  integers (the repository never relies on fractional numbers, and the
  parser model rejects a fraction or exponent instead of producing a float).
* Python dictionaries are modelled as association lists in insertion order;
  `pyInsert` mirrors dict assignment (replace in place, else append) and
  `pyLookup` mirrors `dict.get`.
* Python exceptions are modelled by `PyExn`; fallible code returns
  `Except PyExn _`.
* `json.dumps` (default arguments: `ensure_ascii=True`, separators
  `", "` and `": "`) is modelled by `dumpVal`; `json.loads` by `jsonLoads`.
  A string char is escaped exactly when CPython escapes it; astral
  characters become surrogate pairs.  A lone surrogate in a `\u` escape is
  unrepresentable as a Lean `Char` and is modelled as a parse failure (the
  serializer never produces one).
-/

set_option maxRecDepth 100000

/-- A JSON value as produced by `json.loads`.  Numbers are restricted to
integers (see the module comment). -/
inductive Json where
  | null : Json
  | bool : Bool → Json
  | num : Int → Json
  | str : String → Json
  | arr : List Json → Json
  | obj : List (String × Json) → Json

/-- A Python exception, tagged with the class the repository's
`except` clauses distinguish, carrying `str(e)`. -/
inductive PyExn where
  | importError : String → PyExn
  | attributeError : String → PyExn
  | valueError : String → PyExn
  | typeError : String → PyExn
  | keyError : String → PyExn
  | other : String → PyExn

/-- `str(e)` of a Python exception: the message, except that `KeyError`
stringifies as the repr of its argument. -/
def pyExnStr : PyExn → String
  | .importError m => m
  | .attributeError m => m
  | .valueError m => m
  | .typeError m => m
  | .keyError m => "'" ++ m ++ "'"
  | .other m => m

/-- `d.get(k)` on a model dictionary: the value at the first matching key. -/
def pyLookup (k : String) (l : List (String × Json)) : Option Json :=
  (l.find? (fun kv => kv.1 == k)).map (fun kv => kv.2)

/-- `d[k] = v` on a model dictionary: replace in place, else append. -/
def pyInsert (l : List (String × Json)) (k : String) (v : Json) :
    List (String × Json) :=
  match l with
  | [] => [(k, v)]
  | (k', v') :: t => if k' == k then (k, v) :: t else (k', v') :: pyInsert t k v

/-- Python truthiness of a JSON-shaped value (`bool(x)`). -/
def jsonTruthy : Json → Bool
  | .null => false
  | .bool b => b
  | .num n => n != 0
  | .str s => s != ""
  | .arr l => !l.isEmpty
  | .obj l => !l.isEmpty

/-- Keys of the object are pairwise distinct. -/
def keysNodup : List (String × Json) → Bool
  | [] => true
  | (k, _) :: t => !(t.any (fun kv => kv.1 == k)) && keysNodup t

mutual
/-- Well-formedness of a value as a picture of a Python object tree:
every object has pairwise-distinct keys (Python dicts cannot repeat a key). -/
def wfB : Json → Bool
  | .obj kvs => keysNodup kvs && wfM kvs
  | .arr vs => wfA vs
  | _ => true

def wfM : List (String × Json) → Bool
  | [] => true
  | (_, v) :: t => wfB v && wfM t

def wfA : List Json → Bool
  | [] => true
  | v :: t => wfB v && wfA t
end

/-! ### The serializer: `json.dumps` with default arguments -/

/-- Lowercase hex digit. -/
def hexChar (d : Nat) : Char :=
  if d < 10 then Char.ofNat (48 + d) else Char.ofNat (87 + d)

/-- The four hex digits of `n < 0x10000`, as `json.dumps` prints them. -/
def toHex4 (n : Nat) : List Char :=
  [hexChar (n / 4096 % 16), hexChar (n / 256 % 16), hexChar (n / 16 % 16),
   hexChar (n % 16)]

/-- A `\uXXXX` escape. -/
def uEsc (n : Nat) : List Char := '\\' :: 'u' :: toHex4 n

/-- How `json.dumps` (with `ensure_ascii=True`) renders one character of a
string: `"`, `\`, and the short escapes specially; any character outside
`0x20..0x7e` as `\uXXXX` (astral characters as a surrogate pair); the rest
verbatim. -/
def escChar (c : Char) : List Char :=
  if c = '"' then ['\\', '"']
  else if c = '\\' then ['\\', '\\']
  else if c = '\n' then ['\\', 'n']
  else if c = '\r' then ['\\', 'r']
  else if c = '\t' then ['\\', 't']
  else if c.toNat = 8 then ['\\', 'b']
  else if c.toNat = 12 then ['\\', 'f']
  else if c.toNat < 0x20 ∨ 0x7e < c.toNat then
    if c.toNat < 0x10000 then uEsc c.toNat
    else
      uEsc (0xD800 + (c.toNat - 0x10000) / 0x400) ++
      uEsc (0xDC00 + (c.toNat - 0x10000) % 0x400)
  else [c]

/-- Escape a whole string body. -/
def escList : List Char → List Char
  | [] => []
  | c :: t => escChar c ++ escList t

/-- Decimal digits of a positive natural, most significant first; the
fuel bounds the number of digits (`natToChars` supplies `n` itself, which
is enough since `n / 10 < n` for positive `n`). -/
def natToCharsAux : Nat → Nat → List Char
  | 0, _ => []
  | fuel + 1, n =>
    if n = 0 then []
    else natToCharsAux fuel (n / 10) ++ [Char.ofNat (48 + n % 10)]

/-- Decimal digits of a positive natural, most significant first. -/
def natToChars (n : Nat) : List Char := natToCharsAux n n

/-- `repr` of an integer, as `json.dumps` prints it. -/
def intDump (i : Int) : List Char :=
  if i < 0 then '-' :: (if (-i).toNat = 0 then ['0'] else natToChars (-i).toNat)
  else if i.toNat = 0 then ['0'] else natToChars i.toNat

/-- `"s1" ++ ", " ++ "s2" ++ ", " ++ ...`: the default item separator. -/
def sepJoin : List (List Char) → List Char
  | [] => []
  | [p] => p
  | p :: rest => p ++ ',' :: ' ' :: sepJoin rest

mutual
/-- `json.dumps(v)` with default arguments, as a character list. -/
def dumpVal : Json → List Char
  | .null => "null".data
  | .bool true => "true".data
  | .bool false => "false".data
  | .num i => intDump i
  | .str s => '"' :: (escList s.data ++ ['"'])
  | .arr vs => '[' :: (dumpItems vs ++ [']'])
  | .obj kvs => '{' :: (dumpMembers kvs ++ ['}'])

/-- The members of an object, joined by `", "`. -/
def dumpMembers : List (String × Json) → List Char
  | [] => []
  | [(k, v)] => '"' :: (escList k.data ++ '"' :: ':' :: ' ' :: dumpVal v)
  | (k, v) :: rest =>
      ('"' :: (escList k.data ++ '"' :: ':' :: ' ' :: dumpVal v)) ++
      ',' :: ' ' :: dumpMembers rest

/-- The items of an array, joined by `", "`. -/
def dumpItems : List Json → List Char
  | [] => []
  | [v] => dumpVal v
  | v :: rest => dumpVal v ++ ',' :: ' ' :: dumpItems rest
end

/-- `json.dumps(v)` as a `String`. -/
def jsonDumpStr (v : Json) : String := String.mk (dumpVal v)

/-! ### The parser: `json.loads` -/

/-- JSON whitespace (the exact set `json.loads` skips). -/
def wsJson (c : Char) : Bool := c = ' ' || c = '\t' || c = '\n' || c = '\r'

/-- Skip JSON whitespace. -/
def skipWs (l : List Char) : List Char := l.dropWhile wsJson

def isDigitCh (c : Char) : Bool := '0' ≤ c && c ≤ '9'

/-- Value of one hex digit, either case. -/
def hexVal (c : Char) : Option Nat :=
  if '0' ≤ c && c ≤ '9' then some (c.toNat - 48)
  else if 'a' ≤ c && c ≤ 'f' then some (c.toNat - 87)
  else if 'A' ≤ c && c ≤ 'F' then some (c.toNat - 55)
  else none

def consStr (c : Char) :
    Except String (List Char × List Char) →
    Except String (List Char × List Char)
  | .ok (s, r) => .ok (c :: s, r)
  | .error e => .error e

mutual
/-- Scan a string body (the opening quote already consumed), decoding
escapes the way `json.loads` does in strict mode: raw control characters
are rejected, `\uXXXX` decodes a BMP character, a high surrogate followed
by a low surrogate decodes an astral character.  A lone surrogate is
modelled as a failure (see the module comment). -/
def parseStr : List Char → Except String (List Char × List Char)
  | [] => .error "Unterminated string"
  | c :: r =>
    if c = '"' then .ok ([], r)
    else if c = '\\' then parseEsc r
    else if c.toNat < 0x20 then .error "Invalid control character"
    else consStr c (parseStr r)

/-- Decode one backslash escape. -/
def parseEsc : List Char → Except String (List Char × List Char)
  | [] => .error "Unterminated string"
  | e :: r =>
    if e = 'u' then parseU r
    else if e = '"' then consStr '"' (parseStr r)
    else if e = '\\' then consStr '\\' (parseStr r)
    else if e = '/' then consStr '/' (parseStr r)
    else if e = 'b' then consStr (Char.ofNat 8) (parseStr r)
    else if e = 'f' then consStr (Char.ofNat 12) (parseStr r)
    else if e = 'n' then consStr '\n' (parseStr r)
    else if e = 'r' then consStr '\r' (parseStr r)
    else if e = 't' then consStr '\t' (parseStr r)
    else .error "Invalid \\escape"

/-- Decode the four hex digits of `\uXXXX`, pairing surrogates. -/
def parseU : List Char → Except String (List Char × List Char)
  | a :: b :: c :: d :: r =>
    match hexVal a, hexVal b, hexVal c, hexVal d with
    | some x, some y, some z, some w =>
      let n := ((x * 16 + y) * 16 + z) * 16 + w
      if 0xD800 ≤ n ∧ n ≤ 0xDBFF then parseU2 n r
      else if 0xDC00 ≤ n ∧ n ≤ 0xDFFF then .error "Unpaired surrogate"
      else consStr (Char.ofNat n) (parseStr r)
    | _, _, _, _ => .error "Invalid \\uXXXX escape"
  | _ => .error "Invalid \\uXXXX escape"

/-- Decode the low-surrogate half following a high surrogate `n`. -/
def parseU2 (n : Nat) : List Char → Except String (List Char × List Char)
  | e1 :: e2 :: a :: b :: c :: d :: r =>
    if e1 = '\\' ∧ e2 = 'u' then
      match hexVal a, hexVal b, hexVal c, hexVal d with
      | some x, some y, some z, some w =>
        let m := ((x * 16 + y) * 16 + z) * 16 + w
        if 0xDC00 ≤ m ∧ m ≤ 0xDFFF then
          consStr (Char.ofNat (0x10000 + (n - 0xD800) * 0x400 + (m - 0xDC00)))
            (parseStr r)
        else .error "Unpaired surrogate"
      | _, _, _, _ => .error "Invalid \\uXXXX escape"
    else .error "Unpaired surrogate"
  | _ => .error "Unpaired surrogate"
end

/-- Parse an unsigned integer numeral the way `json.loads`'s number regex
does: `0` alone, or a nonzero leading digit followed by more digits; a
following `.`, `e` or `E` would start a float, which this model rejects. -/
def parseNum (l : List Char) : Except String (Nat × List Char) :=
  match l with
  | [] => .error "Expecting value"
  | c :: r =>
    if c = '0' then
      match r.head? with
      | some c2 =>
        if c2 = '.' ∨ c2 = 'e' ∨ c2 = 'E' then .error "float not modelled"
        else .ok (0, r)
      | none => .ok (0, r)
    else if isDigitCh c then
      let ds := c :: r.takeWhile isDigitCh
      let rest := r.dropWhile isDigitCh
      match rest.head? with
      | some c2 =>
        if c2 = '.' ∨ c2 = 'e' ∨ c2 = 'E' then .error "float not modelled"
        else .ok (ds.foldl (fun a d => a * 10 + (d.toNat - 48)) 0, rest)
      | none => .ok (ds.foldl (fun a d => a * 10 + (d.toNat - 48)) 0, rest)
    else .error "Expecting value"

mutual
/-- One JSON value, leading whitespace allowed, mirroring
`json.loads`'s scanner (objects, arrays, strings, literals, integers). -/
def parseVal : Nat → List Char → Except String (Json × List Char)
  | 0, _ => .error "fuel"
  | fuel + 1, l =>
    match skipWs l with
    | [] => .error "Expecting value"
    | c :: r =>
      if c = '{' then
        if (skipWs r).head? = some '}' then .ok (.obj [], (skipWs r).tail)
        else parseMembers fuel (skipWs r) []
      else if c = '[' then
        if (skipWs r).head? = some ']' then .ok (.arr [], (skipWs r).tail)
        else parseItems fuel (skipWs r) []
      else if c = '"' then
        match parseStr r with
        | .ok (s, rest) => .ok (.str (String.mk s), rest)
        | .error e => .error e
      else if c = 't' then
        match r with
        | 'r' :: 'u' :: 'e' :: r2 => .ok (.bool true, r2)
        | _ => .error "Expecting value"
      else if c = 'f' then
        match r with
        | 'a' :: 'l' :: 's' :: 'e' :: r2 => .ok (.bool false, r2)
        | _ => .error "Expecting value"
      else if c = 'n' then
        match r with
        | 'u' :: 'l' :: 'l' :: r2 => .ok (.null, r2)
        | _ => .error "Expecting value"
      else if c = '-' then
        match parseNum r with
        | .ok (n, rest) => .ok (.num (-(n : Int)), rest)
        | .error e => .error e
      else
        match parseNum (c :: r) with
        | .ok (n, rest) => .ok (.num (n : Int), rest)
        | .error e => .error e

/-- The members of an object, positioned at a key's opening quote. -/
def parseMembers : Nat → List Char → List (String × Json) →
    Except String (Json × List Char)
  | 0, _, _ => .error "fuel"
  | fuel + 1, l, acc =>
    match l with
    | '"' :: r =>
      match parseStr r with
      | .error e => .error e
      | .ok (k, r1) =>
        match skipWs r1 with
        | ':' :: r2 =>
          match parseVal fuel r2 with
          | .error e => .error e
          | .ok (v, r3) =>
            let acc' := pyInsert acc (String.mk k) v
            match skipWs r3 with
            | ',' :: r4 => parseMembers fuel (skipWs r4) acc'
            | '}' :: r4 => .ok (.obj acc', r4)
            | _ => .error "Expecting delimiter"
        | _ => .error "Expecting colon"
    | _ => .error "Expecting property name"

/-- The items of an array, positioned at an item. -/
def parseItems : Nat → List Char → List Json →
    Except String (Json × List Char)
  | 0, _, _ => .error "fuel"
  | fuel + 1, l, acc =>
    match parseVal fuel l with
    | .error e => .error e
    | .ok (v, r) =>
      match skipWs r with
      | ',' :: r2 => parseItems fuel r2 (acc ++ [v])
      | ']' :: r2 => .ok (.arr (acc ++ [v]), r2)
      | _ => .error "Expecting delimiter"
end

/-- `json.loads`: one value, then only whitespace may remain. -/
def jsonLoads (l : List Char) : Except String Json :=
  match parseVal (l.length + 1) l with
  | .ok (v, rest) =>
    if skipWs rest = [] then .ok v else .error "Extra data"
  | .error e => .error e

/-! ### The extraction regex of `LLMProvider.extract_tool_call`

The source searches `response_text` with the pattern

    ```(?:json)?\s*({[\s\S]*?})\s*```

and, failing that, matches `^({[\s\S]*})$` against the stripped text.
The first pattern is modelled by a specialized engine with Python's
`re.search` semantics: leftmost match wins, the group `{[\s\S]*?}` is lazy,
`(?:json)?` prefers to consume, `\s*` before a required non-space literal
is equivalent to skipping the maximal whitespace run. -/

/-- The backtick character (0x60). -/
def btick : Char := Char.ofNat 96

/-- `\s` of Python's `re` on the inputs that occur here (the ASCII
whitespace class; CPython additionally treats some rare Unicode
whitespace as `\s`, which no claim depends on). -/
def wsRe (c : Char) : Bool :=
  c = ' ' || c = '\t' || c = '\n' || c = '\r' || c = '\x0b' || c = '\x0c'

/-- Three backticks. -/
def fence3 : List Char := [btick, btick, btick]

/-- `\s*``` ` succeeds here: after the maximal whitespace run the text
continues with three backticks. -/
def fenceClose (l : List Char) : Bool := (l.dropWhile wsRe).take 3 = fence3

/-- The lazy group `{[\s\S]*?}` followed by `\s*``` `: extend the group one
character at a time and stop at the first `}` whose continuation closes the
fence.  `acc` holds the group so far, reversed. -/
def lazyScan : List Char → List Char → Option (List Char)
  | _, [] => none
  | acc, c :: rest =>
    if c = '}' && fenceClose rest then some ((c :: acc).reverse)
    else lazyScan (c :: acc) rest

/-- `\s*({[\s\S]*?})\s*``` ` at the current position. -/
def matchCore (l : List Char) : Option (List Char) :=
  match skipRe l with
  | '{' :: r => lazyScan ['{'] r
  | _ => none
where
  /-- skip the maximal `\s*` run -/
  skipRe (l : List Char) : List Char := l.dropWhile wsRe

/-- One match attempt of the full pattern anchored at the head of `l`. -/
def tryAt (l : List Char) : Option (List Char) :=
  if l.take 3 = fence3 then
    let rest := l.drop 3
    match (if rest.take 4 = ['j', 's', 'o', 'n'] then
             matchCore (rest.drop 4) else none) with
    | some g => some g
    | none => matchCore rest
  else none

/-- `re.search` of the fenced pattern: try every start position, leftmost
match wins. -/
def reSearchFenced : List Char → Option (List Char)
  | [] => none
  | l@(_ :: rest) =>
    match tryAt l with
    | some g => some g
    | none => reSearchFenced rest

/-- `str.strip()` (ASCII whitespace; see `wsRe`). -/
def pyStrip (l : List Char) : List Char :=
  ((l.dropWhile wsRe).reverse.dropWhile wsRe).reverse

/-- The fallback `re.search(r'^({[\s\S]*})$', text.strip(), re.DOTALL)`:
with the greedy group anchored on both sides this matches exactly when the
stripped text starts with `{` and ends with `}`, the group being the whole
stripped text. -/
def bareMatch (l : List Char) : Option (List Char) :=
  let s := pyStrip l
  if s.head? = some '{' && s.getLast? = some '}' && decide (2 ≤ s.length)
  then some s else none

/-- `LLMProvider.extract_tool_call` (llm_provider.py lines 33-57): find a
candidate JSON object, parse it, and accept only when both the `"tool"`
and the `"parameters"` key are present; every failure path swallows the
exception and yields `none`. -/
def extractToolCall (s : String) : Option (List (String × Json)) :=
  match (match reSearchFenced s.data with
         | some g => some g
         | none => bareMatch s.data) with
  | none => none
  | some gl =>
    match jsonLoads gl with
    | .error _ => none
    | .ok (.obj kvs) =>
      if (pyLookup "tool" kvs).isSome && (pyLookup "parameters" kvs).isSome
      then some kvs else none
    | .ok _ => none

/-! ### Conversation data model -/

/-- One conversation message (`{"role": ..., "content": ...}`). -/
structure Msg where
  role : String
  content : String
deriving DecidableEq, Repr

/-- The state of `Memory` (memory.py): the stored turns, the capacity
`max_items`, and the `enabled` flag.  (Python stores the raw configured
value in `enabled` and tests its truthiness at use; the model stores the
truth value, computed by `jsonTruthy` where a config value flows in.) -/
structure Memory where
  messages : List Msg
  maxItems : Nat
  enabled : Bool
deriving DecidableEq, Repr

/-- The Python slice `l[-n:]`.  For `n = 0` this is `l[0:]`, the whole
list — negative-zero slicing is a no-op in Python. -/
def sliceLast (n : Nat) (l : List Msg) : List Msg :=
  if n = 0 then l else l.drop (l.length - n)

/-- `Memory.add` (memory.py lines 17-31): no-op when disabled, else append
and, if the length now exceeds `max_items`, keep `messages[-max_items:]`. -/
def Memory.add (m : Memory) (role content : String) : Memory :=
  if !m.enabled then m
  else
    let ms := m.messages ++ [⟨role, content⟩]
    if ms.length > m.maxItems then
      { m with messages := sliceLast m.maxItems ms }
    else { m with messages := ms }

/-- `Memory.get_messages` (memory.py lines 33-39): returns the stored
list, with no check of the `enabled` flag. -/
def Memory.getMessages (m : Memory) : List Msg := m.messages

/-- `Memory.is_enabled`. -/
def Memory.isEnabled (m : Memory) : Bool := m.enabled

/-- `Memory.set_enabled`. -/
def Memory.setEnabled (m : Memory) (b : Bool) : Memory := { m with enabled := b }

/-- Fold a sequence of `add` calls over a memory. -/
def addAll (m : Memory) (l : List (String × String)) : Memory :=
  l.foldl (fun m rc => m.add rc.1 rc.2) m

/-- The Python type name, for `AttributeError`/`TypeError` messages. -/
def pyTypeName : Json → String
  | .null => "NoneType"
  | .bool _ => "bool"
  | .num _ => "int"
  | .str _ => "str"
  | .arr _ => "list"
  | .obj _ => "dict"

/-- The memory constructed by `Agent.__init__` (agent.py line 19):
`Memory(max_items=10, enabled=self.config.get("config", {}).get("memory", False))`.
A non-dict at either `.get` raises `AttributeError` out of construction. -/
def initMemory (config : Json) : Except PyExn Memory :=
  match config with
  | .obj kvs =>
    match (pyLookup "config" kvs).getD (.obj []) with
    | .obj ckvs =>
      .ok ⟨[], 10, jsonTruthy ((pyLookup "memory" ckvs).getD (.bool false))⟩
    | sub => .error (.attributeError
        ("'" ++ pyTypeName sub ++ "' object has no attribute 'get'"))
  | other => .error (.attributeError
      ("'" ++ pyTypeName other ++ "' object has no attribute 'get'"))

/-! ### Python `str()` of the modelled values -/

mutual
/-- `repr(x)` of a JSON-shaped Python value (string escaping inside `repr`
is not modelled; no claim depends on it). -/
def pyRepr : Json → String
  | .null => "None"
  | .bool true => "True"
  | .bool false => "False"
  | .num i => String.mk (intDump i)
  | .str s => "'" ++ s ++ "'"
  | .arr vs => "[" ++ pyReprA vs ++ "]"
  | .obj kvs => "\x7b" ++ pyReprM kvs ++ "\x7d"

def pyReprA : List Json → String
  | [] => ""
  | [v] => pyRepr v
  | v :: t => pyRepr v ++ ", " ++ pyReprA t

def pyReprM : List (String × Json) → String
  | [] => ""
  | [(k, v)] => "'" ++ k ++ "': " ++ pyRepr v
  | (k, v) :: t => "'" ++ k ++ "': " ++ pyRepr v ++ ", " ++ pyReprM t
end

/-- `str(x)`: the string itself for strings, else `repr`. -/
def pyStr : Json → String
  | .str s => s
  | v => pyRepr v

/-! ### System-prompt construction (`Agent._create_system_prompt`) -/

/-- Split at the first `}`: field name before it, remainder after it. -/
def splitBrace : List Char → Option (List Char × List Char)
  | [] => none
  | c :: r =>
    if c = '}' then some ([], r)
    else (splitBrace r).map (fun p => (c :: p.1, p.2))

theorem splitBrace_len :
    ∀ l f r, splitBrace l = some (f, r) → r.length < l.length := by
  intro l
  induction l with
  | nil => intro f r h; simp [splitBrace] at h
  | cons c t ih =>
    intro f r h
    simp only [splitBrace] at h
    split at h
    · rw [Option.some.injEq, Prod.mk.injEq] at h
      obtain ⟨h1, h2⟩ := h
      subst h2
      simp
    · cases h' : splitBrace t with
      | none => rw [h'] at h; simp at h
      | some p =>
        rw [h'] at h
        simp only [Option.map_some', Option.some.injEq, Prod.mk.injEq] at h
        obtain ⟨h1, h2⟩ := h
        subst h2
        have := ih p.1 p.2 h'
        simp
        omega

/-- `str.format` restricted to the replacement fields the agent supplies
(`{agent_name}`, `{backstory}`, `{task}`), with `{{`/`}}` escapes; any
other field raises `KeyError`, an unbalanced brace raises `ValueError`.
(Python's format-spec and auto-numbering syntax is not modelled; the
repository's templates use only named fields.) -/
def fmtGo (an bs tk : String) : Nat → List Char → Except PyExn (List Char)
  | 0, _ => .error (.other "format recursion limit")
  | _, [] => .ok []
  | fuel + 1, '{' :: '{' :: r => (fmtGo an bs tk fuel r).map (fun t => '{' :: t)
  | fuel + 1, '}' :: '}' :: r => (fmtGo an bs tk fuel r).map (fun t => '}' :: t)
  | fuel + 1, '{' :: r =>
    match splitBrace r with
    | some (field, r2) =>
      let nm := String.mk field
      if nm = "agent_name" then
        (fmtGo an bs tk fuel r2).map (fun t => an.data ++ t)
      else if nm = "backstory" then
        (fmtGo an bs tk fuel r2).map (fun t => bs.data ++ t)
      else if nm = "task" then
        (fmtGo an bs tk fuel r2).map (fun t => tk.data ++ t)
      else .error (.keyError nm)
    | none => .error (.valueError "Single '\x7b' encountered in format string")
  | _, '}' :: _ =>
    .error (.valueError "Single '\x7d' encountered in format string")
  | fuel + 1, c :: r => (fmtGo an bs tk fuel r).map (fun t => c :: t)

/-- `prompt_template.format(agent_name=..., backstory=..., task=...)`.
The fuel `length + 1` can never run out: every step consumes at least one
character of the template (`splitBrace_len`). -/
def pyFormat (tmpl an bs tk : String) : Except PyExn String :=
  (fmtGo an bs tk (tmpl.data.length + 1) tmpl.data).map String.mk

/-- The fixed tool-invocation instruction block appended to every system
prompt (agent.py lines 100-115). -/
def fixedBlock : String :=
  "\nTo use a tool, use the following format:\n```\n\x7b\n  \"tool\": \"tool_name\",\n  \"parameters\": \x7b\n    \"param1\": \"value1\",\n    \"param2\": \"value2\"\n  \x7d\n\x7d\n```\n\nFirst think about the request, then decide if you need to use a tool.\nIf you need to use a tool, output ONLY the JSON above.\nAfter receiving tool results, respond to the user naturally.\n"

/-- The per-tool lines of the default template:
`- {tool_name}: {tool_config.get('description', '')}`.  A non-dict tool
config raises `AttributeError` at the `.get`. -/
def toolLines : List (String × Json) → Except PyExn String
  | [] => .ok ""
  | (n, cfg) :: t =>
    match cfg with
    | .obj kvs =>
      (toolLines t).map (fun rest =>
        "- " ++ n ++ ": " ++ pyStr ((pyLookup "description" kvs).getD (.str ""))
        ++ "\n" ++ rest)
    | other => .error (.attributeError
        ("'" ++ pyTypeName other ++ "' object has no attribute 'get'"))

/-- The persona fields the prompt builder reads from
`config.get("config", {})` (each defaulted to `""`; the repository's
configs hold strings here, so the model types them as strings). -/
structure AgentCfg where
  name : String
  backstory : String
  task : String
  promptTemplate : String
  think : String

/-- The agent state a query turn reads: persona config, the loaded tool
registry (tool name → parsed descriptor JSON, in load order), and memory. -/
structure AgentState where
  cfg : AgentCfg
  tools : List (String × Json)
  memory : Memory

/-- `Agent._create_system_prompt` (agent.py lines 71-116): a truthy
(nonempty) `prompt_template` is formatted with the persona fields;
otherwise the default template enumerates the registered tools and the
optional think hint.  Both paths append `fixedBlock`. -/
def createSystemPrompt (st : AgentState) : Except PyExn String :=
  if st.cfg.promptTemplate ≠ "" then
    (pyFormat st.cfg.promptTemplate st.cfg.name st.cfg.backstory st.cfg.task).map
      (fun s => s ++ fixedBlock)
  else
    (toolLines st.tools).map (fun lines =>
      "You are " ++ st.cfg.name ++ ". " ++ st.cfg.backstory ++
      "\nYour task is to " ++ st.cfg.task ++
      ".\n\nYou have access to the following tools:\n" ++ lines ++
      (if st.cfg.think ≠ "" then
        "\nThinking process: " ++ st.cfg.think ++ "\n" else "") ++
      fixedBlock)

/-! ### Tool dispatch (`Agent._execute_tool`) -/

/-- `path.rsplit('.', 1)` when it yields two parts: split at the last
dot; `none` when the path has no dot (the two-target unpacking then
raises `ValueError`). -/
def rsplitDot (s : String) : Option (String × String) :=
  if s.data.contains '.' then
    some (String.mk ((s.data.reverse.dropWhile (fun c => c ≠ '.')).drop 1).reverse,
          String.mk (s.data.reverse.takeWhile (fun c => c ≠ '.')).reverse)
  else none

/-- The environment a turn runs against: the backend adapter's
`get_response` and `format_tools` (abstract — network and provider
behaviour), and the resolver modelling
`importlib.import_module` + `getattr` (abstract — the filesystem's
modules).  Any of them may raise. -/
structure LLMEnv where
  getResponse : List Msg → Option (List Json) → Except PyExn String
  formatTools : List (String × Json) → List Json
  resolve : String → String →
    Except PyExn (List (String × Json) → Except PyExn Json)

/-- The `try` block of `_execute_tool` (agent.py lines 61-65): split the
path, resolve the callable, apply it to the keyword arguments. -/
def tryBody (env : LLMEnv) (fp : Json) (params : Json) : Except PyExn Json :=
  match fp with
  | .str p =>
    match rsplitDot p with
    | none => .error (.valueError "not enough values to unpack (expected 2, got 1)")
    | some (m, f) =>
      match env.resolve m f with
      | .error e => .error e
      | .ok fn =>
        match params with
        | .obj pkvs => fn pkvs
        | _ => .error (.typeError "argument after ** must be a mapping")
  | other => .error (.attributeError
      ("'" ++ pyTypeName other ++ "' object has no attribute 'rsplit'"))

/-- The two `except` clauses of `_execute_tool` (agent.py lines 66-69):
`ImportError`/`AttributeError` become the loading-error string, any other
exception the executing-error string. -/
def catchTool : Except PyExn Json → Json
  | .ok v => v
  | .error (.importError m) => .str ("Error loading tool function: " ++ m)
  | .error (.attributeError m) => .str ("Error loading tool function: " ++ m)
  | .error e => .str ("Error executing tool: " ++ pyExnStr e)

/-- `Agent._execute_tool` (agent.py lines 50-69).  The result is `.ok`
with the tool's value or an error string; `.error` models the uncaught
exceptions of the guard itself (an unhashable `tool_name`, a non-dict
tool config), which propagate to `process_query`'s handler. -/
def executeTool (env : LLMEnv) (tools : List (String × Json))
    (toolName : Json) (params : Json) : Except PyExn Json :=
  match toolName with
  | .obj _ => .error (.typeError "unhashable type: 'dict'")
  | .arr _ => .error (.typeError "unhashable type: 'list'")
  | .str s =>
    match pyLookup s tools with
    | none => .ok (.str ("Error: Tool '" ++ s ++ "' not found"))
    | some cfg =>
      match cfg with
      | .obj ckvs =>
        let fp := (pyLookup "function" ckvs).getD .null
        if jsonTruthy fp then .ok (catchTool (tryBody env fp params))
        else .ok (.str ("Error: Function path not defined for tool '" ++ s ++ "'"))
      | other => .error (.attributeError
          ("'" ++ pyTypeName other ++ "' object has no attribute 'get'"))
  | nm => .ok (.str ("Error: Tool '" ++ pyStr nm ++ "' not found"))

/-! ### The query turn (`Agent.process_query`) -/

/-- The outgoing message list before the first backend call: system
prompt, then the stored turns if memory is enabled, then the user query
(agent.py lines 126-133). -/
def mkMsgs0 (st : AgentState) (sysP q : String) : List Msg :=
  ⟨"system", sysP⟩ ::
    ((if st.memory.isEnabled then st.memory.getMessages else []) ++ [⟨"user", q⟩])

/-- The body of `process_query`'s `try` block (agent.py lines 124-175),
threading the memory state so that the state at an exception is the state
the handler leaves behind. -/
def processBody (env : LLMEnv) (st : AgentState) (q : String) :
    Except PyExn String × Memory :=
  match createSystemPrompt st with
  | .error e => (.error e, st.memory)
  | .ok sysP =>
    let msgs0 := mkMsgs0 st sysP q
    let mem1 := st.memory.add "user" q
    match env.getResponse msgs0 (some (env.formatTools st.tools)) with
    | .error e => (.error e, mem1)
    | .ok toolResponse =>
      match extractToolCall toolResponse with
      | some tc =>
        let toolName := (pyLookup "tool" tc).getD .null
        let params := (pyLookup "parameters" tc).getD (.obj [])
        match executeTool env st.tools toolName params with
        | .error e => (.error e, mem1)
        | .ok toolResult =>
          let msgs1 := msgs0 ++
            [⟨"assistant", jsonDumpStr (.obj tc)⟩,
             ⟨"system", "Tool result: " ++ pyStr toolResult⟩]
          match env.getResponse msgs1 none with
          | .error e => (.error e, mem1)
          | .ok finalResponse =>
            (.ok finalResponse, mem1.add "assistant" finalResponse)
      | none => (.ok toolResponse, mem1.add "assistant" toolResponse)

/-- `Agent.process_query` (agent.py lines 122-178): the `try` body, with
any exception converted at the outermost boundary into the
`"Error processing query: ..."` string. -/
def processQuery (env : LLMEnv) (st : AgentState) (q : String) :
    String × Memory :=
  match processBody env st q with
  | (.ok s, m) => (s, m)
  | (.error e, m) => ("Error processing query: " ++ pyExnStr e, m)

/-! ### The prompt-only backend's message mapping
(`AnthropicProvider.get_response`, llm_provider.py lines 150-175) -/

/-- The message-mapping loop: while no output message has been
accumulated, a system message overwrites the top-level system field;
afterwards a system message becomes a prefixed assistant message; user
and assistant messages pass through; other roles are dropped. -/
def claudeGo (sys : String) (acc : List Msg) : List Msg → String × List Msg
  | [] => (sys, acc)
  | m :: rest =>
    if m.role = "system" then
      if acc.isEmpty then claudeGo m.content acc rest
      else claudeGo sys
        (acc ++ [⟨"assistant", "System message: " ++ m.content⟩]) rest
    else if m.role = "user" then claudeGo sys (acc ++ [⟨"user", m.content⟩]) rest
    else if m.role = "assistant" then
      claudeGo sys (acc ++ [⟨"assistant", m.content⟩]) rest
    else claudeGo sys acc rest

/-- The (system field, outgoing messages) pair the backend sends. -/
def claudeMap (msgs : List Msg) : String × List Msg := claudeGo "" [] msgs

/-! ### Actions -/

/-- An Action: a parsed tool invocation (tool name plus parameter
mapping). -/
structure ToolAction where
  tool : String
  params : List (String × Json)

/-- The serialized form of an Action: a single object with the `"tool"`
and `"parameters"` keys. -/
def serializeAction (a : ToolAction) : Json :=
  .obj [("tool", .str a.tool), ("parameters", .obj a.params)]

/-- The serialized Action inside a fenced code block, optionally labeled
`json`. -/
def fenceWrap (lbl : Bool) (v : Json) : String :=
  (if lbl then "```json\n" else "```\n") ++ jsonDumpStr v ++ "\n```"

/-- No backtick occurs in the character list. -/
def noBacktickB (l : List Char) : Bool := l.all (fun c => c ≠ btick)

/-! ### Memory lemmas -/

/-- The last `n` elements of a list (all of it when it is shorter). -/
def lastN (n : Nat) (l : List Msg) : List Msg := l.drop (l.length - n)

theorem lastN_length_le (n : Nat) (l : List Msg) : (lastN n l).length ≤ n := by
  simp [lastN]
  omega

theorem lastN_of_le (n : Nat) (l : List Msg) (h : l.length ≤ n) :
    lastN n l = l := by
  simp [lastN, Nat.sub_eq_zero_of_le h]

theorem lastN_append_lastN (n : Nat) (a b : List Msg) (hn : 1 ≤ n) :
    lastN n (lastN n a ++ b) = lastN n (a ++ b) := by
  rcases le_or_lt a.length n with h | h
  · rw [lastN_of_le n a h]
  · unfold lastN
    have hk : a.length - n ≤ a.length := by omega
    rw [← List.drop_append_of_le_length hk, List.drop_drop]
    congr 1
    simp
    omega

theorem memory_add_enabled (acc : List Msg) (N : Nat) (r c : String)
    (hN : 1 ≤ N) (hlen : acc.length ≤ N) :
    Memory.add ⟨acc, N, true⟩ r c = ⟨lastN N (acc ++ [⟨r, c⟩]), N, true⟩ := by
  unfold Memory.add
  simp only [Bool.not_true, Bool.false_eq_true, if_false]
  split
  · have hN0 : N ≠ 0 := by omega
    simp [sliceLast, hN0, lastN]
  · rename_i hle
    rw [lastN_of_le _ _ (by simp at hle ⊢; omega)]

theorem memory_add_disabled (m : Memory) (r c : String)
    (h : m.enabled = false) : m.add r c = m := by
  unfold Memory.add
  simp [h]

theorem addAll_enabled (N : Nat) (hN : 1 ≤ N) :
    ∀ (L : List (String × String)) (acc : List Msg), acc.length ≤ N →
      addAll ⟨acc, N, true⟩ L =
        ⟨lastN N (acc ++ L.map (fun rc => ⟨rc.1, rc.2⟩)), N, true⟩ := by
  intro L
  induction L with
  | nil =>
    intro acc h
    simp [addAll, lastN_of_le N acc h]
  | cons rc L' ih =>
    intro acc hlen
    have step : addAll ⟨acc, N, true⟩ (rc :: L') =
        addAll (Memory.add ⟨acc, N, true⟩ rc.1 rc.2) L' := rfl
    rw [step, memory_add_enabled acc N rc.1 rc.2 hN hlen,
        ih _ (lastN_length_le N _)]
    rw [lastN_append_lastN N _ _ hN]
    simp

/-- C6 (amended): for capacity `N ≥ 1`, any sequence of adds to a fresh
enabled memory leaves at most `N` stored turns, and with at least `N` adds
the stored sequence is exactly the last `N` adds in order.  (For `N = 0`
the Python slice `messages[-0:]` is the whole list and the bound fails;
see the counterexample.) -/
theorem memory_bounded_fifo (N : Nat) (L : List (String × String))
    (hN : 1 ≤ N) :
    (addAll ⟨[], N, true⟩ L).getMessages.length ≤ N ∧
    (N ≤ L.length →
      (addAll ⟨[], N, true⟩ L).getMessages =
        (L.map (fun rc => (⟨rc.1, rc.2⟩ : Msg))).drop (L.length - N)) := by
  rw [show (addAll ⟨[], N, true⟩ L).getMessages =
      lastN N (L.map (fun rc => ⟨rc.1, rc.2⟩)) by
    rw [addAll_enabled N hN L [] (by simp)]
    rfl]
  constructor
  · exact lastN_length_le N _
  · intro _
    simp [lastN]

/-- C6 witness: capacity 2, adds A, B, C, result exactly [B, C]. -/
theorem memory_bounded_fifo_witness :
    (addAll ⟨[], 2, true⟩
      [("user", "A"), ("user", "B"), ("user", "C")]).getMessages =
      [⟨"user", "B"⟩, ⟨"user", "C"⟩] := by
  have h := (memory_bounded_fifo 2
    [("user", "A"), ("user", "B"), ("user", "C")] (by decide)).2 (by decide)
  simpa using h

/-- C6 counterexample: a `Memory` of capacity 0 (legal to construct) grows
on `add` — the truncating slice `messages[-0:]` is the whole list in
Python — so the stored length exceeds the capacity and `get_messages` does
not return the last 0 adds. -/
theorem memory_capacity_zero_cex :
    (Memory.add ⟨[], 0, true⟩ "user" "A").getMessages = [⟨"user", "A"⟩] ∧
    ¬ ((Memory.add ⟨[], 0, true⟩ "user" "A").getMessages.length ≤ 0) := by
  constructor
  · rfl
  · decide

/-- C7 (amended): `get_messages` returns the stored turns with no check of
the `enabled` flag: toggling the flag does not change what is returned,
and a memory that has never been enabled returns the empty sequence
(because `add` is a no-op while disabled). -/
theorem memory_get_ignores_flag :
    (∀ (m : Memory) (b : Bool), (m.setEnabled b).getMessages = m.getMessages) ∧
    (∀ (N : Nat) (L : List (String × String)),
      (addAll ⟨[], N, false⟩ L).getMessages = []) := by
  constructor
  · intro m b
    rfl
  · intro N L
    have h : ∀ L', addAll ⟨[], N, false⟩ L' = ⟨[], N, false⟩ := by
      intro L'
      induction L' with
      | nil => rfl
      | cons rc t ih =>
        have step : addAll ⟨[], N, false⟩ (rc :: t) =
            addAll (Memory.add ⟨[], N, false⟩ rc.1 rc.2) t := rfl
        rw [step, memory_add_disabled _ _ _ rfl]
        exact ih
    rw [h L]
    rfl

/-- C7 counterexample: a turn recorded while memory was enabled is still
returned by `get_messages` after the flag is set to false — the claim's
"empty sequence when disabled" fails on the code. -/
theorem memory_disabled_returns_history_cex :
    ((Memory.add ⟨[], 10, true⟩ "user" "A").setEnabled false).getMessages
      = [⟨"user", "A"⟩] ∧
    ((Memory.add ⟨[], 10, true⟩ "user" "A").setEnabled false).getMessages
      ≠ ([] : List Msg) := by
  constructor
  · rfl
  · decide

/-! ### Lemmas about the query turn -/

theorem processQuery_snd (env : LLMEnv) (st : AgentState) (q : String) :
    (processQuery env st q).2 = (processBody env st q).2 := by
  unfold processQuery
  rcases h : processBody env st q with ⟨r, m⟩
  cases r <;> rfl

theorem processBody_snd_disabled (env : LLMEnv) (st : AgentState) (q : String)
    (h : st.memory.enabled = false) : (processBody env st q).2 = st.memory := by
  unfold processBody
  have hadd : ∀ r c, st.memory.add r c = st.memory :=
    fun r c => memory_add_disabled _ r c h
  cases hs : createSystemPrompt st with
  | error e => rfl
  | ok sysP =>
    simp only [hadd]
    split
    · rfl
    · split
      · split
        · rfl
        · split
          · rfl
          · rfl
      · rfl

/-- C9: a config whose `config` object omits the `memory` key (or omits
the `config` object altogether) constructs the agent's memory disabled
with capacity 10; while disabled, `add` is a no-op, so no query turn
records any turn until memory is explicitly enabled. -/
theorem default_memory_disabled (kvs : List (String × Json))
    (h : pyLookup "config" kvs = none ∨
      ∃ ckvs, pyLookup "config" kvs = some (.obj ckvs) ∧
        pyLookup "memory" ckvs = none) :
    initMemory (.obj kvs) = .ok ⟨[], 10, false⟩ ∧
    (∀ role content, Memory.add ⟨[], 10, false⟩ role content = ⟨[], 10, false⟩) ∧
    (∀ (env : LLMEnv) (cfg : AgentCfg) (tools : List (String × Json)) (q : String),
      (processQuery env ⟨cfg, tools, ⟨[], 10, false⟩⟩ q).2 = ⟨[], 10, false⟩) := by
  refine ⟨?_, fun role content => rfl, fun env cfg tools q => ?_⟩
  · rcases h with h | ⟨ckvs, h1, h2⟩
    · simp only [initMemory, h]
      rfl
    · simp only [initMemory, h1, h2, Option.getD_some]
      rfl
  · rw [processQuery_snd, processBody_snd_disabled]
    rfl

/-- C9 witness: a concrete config with no `memory` key. -/
theorem default_memory_disabled_witness :
    initMemory (.obj [("agent_name", Json.str "A")]) = .ok ⟨[], 10, false⟩ :=
  (default_memory_disabled [("agent_name", Json.str "A")] (Or.inl rfl)).1

/-- C2: `process_query` converts any exception raised inside the turn's
body into the string `"Error processing query: "` followed by `str(e)`,
leaving the memory as the body left it — it never propagates the
exception to its caller. -/
theorem process_query_never_throws (env : LLMEnv) (st : AgentState)
    (q : String) (e : PyExn) (m : Memory)
    (h : processBody env st q = (.error e, m)) :
    processQuery env st q = ("Error processing query: " ++ pyExnStr e, m) := by
  unfold processQuery
  rw [h]

/-- A backend whose every call raises. -/
def envBoom : LLMEnv :=
  ⟨fun _ _ => .error (.other "boom"), fun _ => [],
   fun _ _ => .error (.importError "absent")⟩

/-- A minimal agent state: default template, no tools, memory disabled. -/
def stBoom : AgentState := ⟨⟨"A", "", "", "", ""⟩, [], ⟨[], 10, false⟩⟩

/-- C2 witness: with a backend that raises, the turn returns the prefixed
error text instead of throwing. -/
theorem process_query_never_throws_witness :
    processQuery envBoom stBoom "hi" =
      ("Error processing query: boom", ⟨[], 10, false⟩) :=
  process_query_never_throws envBoom stBoom "hi" (.other "boom")
    ⟨[], 10, false⟩ rfl

/-! ### C8: the prompt-only backend's message mapping -/

/-- Is the message a user or assistant turn? -/
def isUA (m : Msg) : Bool := m.role = "user" || m.role = "assistant"

/-- Spec-side description of the top-level system field: the content of
the last system-role message preceding the first user/assistant message,
defaulting to `sys`. -/
def claudeSysSpecFrom (sys : String) : List Msg → String
  | [] => sys
  | m :: rest =>
    if isUA m then sys
    else if m.role = "system" then claudeSysSpecFrom m.content rest
    else claudeSysSpecFrom sys rest

/-- Spec-side description of one outgoing message once the output list has
started: user and assistant pass through, a system turn becomes a prefixed
assistant turn, other roles are dropped. -/
def claudeOutOne (m : Msg) : Option Msg :=
  if m.role = "system" then some ⟨"assistant", "System message: " ++ m.content⟩
  else if m.role = "user" then some ⟨"user", m.content⟩
  else if m.role = "assistant" then some ⟨"assistant", m.content⟩
  else none

/-- Spec-side description of the outgoing message list: everything before
the first user/assistant message is absorbed into the system field (or
dropped); from the first user/assistant message on, `claudeOutOne`. -/
def claudeOutSpec (msgs : List Msg) : List Msg :=
  (msgs.dropWhile (fun m => !isUA m)).filterMap claudeOutOne

theorem claudeGo_acc_nonempty (msgs : List Msg) :
    ∀ (sys : String) (acc : List Msg), acc ≠ [] →
      claudeGo sys acc msgs = (sys, acc ++ msgs.filterMap claudeOutOne) := by
  induction msgs with
  | nil => intro sys acc _; simp [claudeGo]
  | cons m rest ih =>
    intro sys acc hacc
    have hE : acc.isEmpty = false := by
      cases acc with
      | nil => exact absurd rfl hacc
      | cons a t => rfl
    by_cases hsysr : m.role = "system"
    · simp only [claudeGo, hsysr, hE]
      norm_num
      have hx := ih sys
        (acc ++ [(⟨"assistant", "System message: " ++ m.content⟩ : Msg)])
        (by simp)
      rw [hx]
      simp [claudeOutOne, hsysr]
    · by_cases huser : m.role = "user"
      · simp only [claudeGo, hsysr, huser]
        norm_num
        have hx := ih sys (acc ++ [(⟨"user", m.content⟩ : Msg)]) (by simp)
        rw [hx]
        simp [claudeOutOne, hsysr, huser]
      · by_cases hasst : m.role = "assistant"
        · simp only [claudeGo, hsysr, huser, hasst]
          norm_num
          have hx := ih sys (acc ++ [(⟨"assistant", m.content⟩ : Msg)])
            (by simp)
          rw [hx]
          simp [claudeOutOne, hsysr, huser, hasst]
        · simp only [claudeGo, hsysr, huser, hasst]
          norm_num
          rw [ih sys acc hacc]
          simp [claudeOutOne, hsysr, huser, hasst]

theorem claudeGo_empty (msgs : List Msg) :
    ∀ sys : String,
      claudeGo sys [] msgs = (claudeSysSpecFrom sys msgs, claudeOutSpec msgs) := by
  induction msgs with
  | nil => intro sys; simp [claudeGo, claudeSysSpecFrom, claudeOutSpec]
  | cons m rest ih =>
    intro sys
    by_cases hsysr : m.role = "system"
    · have hua : isUA m = false := by simp [isUA, hsysr]
      simp only [claudeGo, hsysr, List.isEmpty_nil]
      norm_num
      rw [ih m.content]
      simp [claudeSysSpecFrom, claudeOutSpec, hua, hsysr]
    · by_cases huser : m.role = "user"
      · have hua : isUA m = true := by simp [isUA, huser]
        simp only [claudeGo, hsysr, huser]
        norm_num
        have hx := claudeGo_acc_nonempty rest sys
          [(⟨"user", m.content⟩ : Msg)] (by simp)
        rw [hx]
        simp [claudeSysSpecFrom, claudeOutSpec, hua, claudeOutOne, hsysr, huser]
      · by_cases hasst : m.role = "assistant"
        · have hua : isUA m = true := by simp [isUA, hasst]
          simp only [claudeGo, hsysr, huser, hasst]
          norm_num
          have hx := claudeGo_acc_nonempty rest sys
            [(⟨"assistant", m.content⟩ : Msg)] (by simp)
          rw [hx]
          simp [claudeSysSpecFrom, claudeOutSpec, hua, claudeOutOne, hsysr,
            huser, hasst]
        · have hua : isUA m = false := by simp [isUA, huser, hasst]
          simp only [claudeGo, hsysr, huser, hasst]
          norm_num
          rw [ih sys]
          simp [claudeSysSpecFrom, claudeOutSpec, hua, hsysr]

/-- C8 (amended): for every message list, the prompt-only backend's
mapping yields as top-level system field the content of the *last*
system message preceding the first user/assistant message (empty if
none) — consecutive leading system messages overwrite each other — and
maps the remaining messages with `claudeOutOne`: system messages after
the output list has started become `"System message: "`-prefixed
assistant turns, user and assistant turns pass through in order. -/
theorem claude_message_mapping (msgs : List Msg) :
    claudeMap msgs = (claudeSysSpecFrom "" msgs, claudeOutSpec msgs) :=
  claudeGo_empty msgs ""

/-- C8 counterexample: with two leading system messages, the top-level
system field is the second one, not the first encountered, and the second
one does not appear in the outgoing list as a prefixed assistant turn. -/
theorem claude_first_system_cex :
    claudeMap [⟨"system", "A"⟩, ⟨"system", "B"⟩, ⟨"user", "U"⟩]
      = ("B", [⟨"user", "U"⟩]) ∧ ("B" : String) ≠ "A" := by
  constructor
  · rfl
  · decide

/-! ### C10: the system prompt's fixed instruction block -/

theorem createSystemPrompt_template (st : AgentState)
    (ht : st.cfg.promptTemplate ≠ "") :
    createSystemPrompt st =
      (pyFormat st.cfg.promptTemplate st.cfg.name st.cfg.backstory
        st.cfg.task).map (fun s => s ++ fixedBlock) := by
  unfold createSystemPrompt
  simp [ht]

theorem createSystemPrompt_default (st : AgentState)
    (ht : st.cfg.promptTemplate = "") :
    createSystemPrompt st = (toolLines st.tools).map (fun lines =>
      "You are " ++ st.cfg.name ++ ". " ++ st.cfg.backstory ++
      "
Your task is to " ++ st.cfg.task ++
      ".

You have access to the following tools:
" ++ lines ++
      (if st.cfg.think ≠ "" then
        "
Thinking process: " ++ st.cfg.think ++ "
" else "") ++
      fixedBlock) := by
  unfold createSystemPrompt
  simp [ht]

/-- C10: every successfully built system prompt — custom-template path or
default path — ends with the fixed tool-invocation instruction block; on
the custom-template path the prompt does not depend on the registered
tools or the think hint (they are not included). -/
theorem system_prompt_fixed_block (st : AgentState) (s : String)
    (h : createSystemPrompt st = .ok s) :
    (∃ p, s = p ++ fixedBlock) ∧
    (st.cfg.promptTemplate ≠ "" →
      ∀ (tools' : List (String × Json)) (think' : String),
        createSystemPrompt ⟨⟨st.cfg.name, st.cfg.backstory, st.cfg.task,
          st.cfg.promptTemplate, think'⟩, tools', st.memory⟩ = .ok s) := by
  by_cases ht : st.cfg.promptTemplate = ""
  · rw [createSystemPrompt_default st ht] at h
    cases hL : toolLines st.tools with
    | error e => rw [hL] at h; simp [Except.map] at h
    | ok lines =>
      rw [hL] at h
      simp only [Except.map] at h
      exact ⟨⟨_, (Except.ok.inj h).symm⟩, fun hc => absurd ht hc⟩
  · rw [createSystemPrompt_template st ht] at h
    cases hF : pyFormat st.cfg.promptTemplate st.cfg.name st.cfg.backstory
        st.cfg.task with
    | error e => rw [hF] at h; simp [Except.map] at h
    | ok f =>
      rw [hF] at h
      simp only [Except.map] at h
      refine ⟨⟨f, (Except.ok.inj h).symm⟩, fun _ tools' think' => ?_⟩
      have hnew : createSystemPrompt ⟨⟨st.cfg.name, st.cfg.backstory,
          st.cfg.task, st.cfg.promptTemplate, think'⟩, tools', st.memory⟩ =
          (pyFormat st.cfg.promptTemplate st.cfg.name st.cfg.backstory
            st.cfg.task).map (fun x => x ++ fixedBlock) :=
        createSystemPrompt_template _ ht
      rw [hnew, hF]
      exact h

/-- A concrete agent state using a custom template. -/
def stTmpl : AgentState :=
  ⟨⟨"N", "B", "T", "Hello \x7bagent_name\x7d", "th"⟩,
   [("t", Json.obj [])], ⟨[], 10, false⟩⟩

/-- C10 witness: the concrete custom-template prompt ends with the block. -/
theorem system_prompt_fixed_block_witness :
    ∃ p, ("Hello N" ++ fixedBlock : String) = p ++ fixedBlock :=
  (system_prompt_fixed_block stTmpl ("Hello N" ++ fixedBlock) (by rfl)).1

/-! ### C4: extraction rejections -/

/-- C4: `extract_tool_call` yields an Action only when both the `"tool"`
and the `"parameters"` key are present in the parsed object — so any
response parsing to an object lacking either key yields `none` — and, at
the claim's concrete instances, an object with only `"tool"`, plain
prose, and malformed JSON all yield `none` without raising. -/
theorem extract_tool_call_rejects :
    (∀ (s : String) (kvs : List (String × Json)),
      extractToolCall s = some kvs →
        (pyLookup "tool" kvs).isSome = true ∧
        (pyLookup "parameters" kvs).isSome = true) ∧
    extractToolCall "\x7b\"tool\": \"t\"\x7d" = none ∧
    extractToolCall "Hello, how can I help?" = none ∧
    extractToolCall "\x7b\"tool\": \x7d" = none := by
  refine ⟨?_, by rfl, by rfl, by rfl⟩
  intro s kvs h
  unfold extractToolCall at h
  split at h
  · exact absurd h (by simp)
  · split at h
    · exact absurd h (by simp)
    · split at h
      · rename_i hcond
        rw [Option.some.injEq] at h
        subst h
        exact And.imp (fun x => x) (fun x => x)
          (Bool.and_eq_true _ _ |>.mp hcond)
      · exact absurd h (by simp)
    · exact absurd h (by simp)

/-- C4 witness: a response carrying both keys is accepted, instantiating
the key-presence characterization. -/
theorem extract_tool_call_rejects_witness :
    (pyLookup "tool"
      [("tool", Json.str "a"), ("parameters", Json.obj [])]).isSome = true ∧
    (pyLookup "parameters"
      [("tool", Json.str "a"), ("parameters", Json.obj [])]).isSome = true :=
  extract_tool_call_rejects.1 "\x7b\"tool\": \"a\", \"parameters\": \x7b\x7d\x7d"
    _ rfl

/-! ### C5: dispatch error classes -/

/-- Is the exception one of the classes the first `except` clause of
`_execute_tool` catches? -/
def isLoadErr : PyExn → Bool
  | .importError _ => true
  | .attributeError _ => true
  | _ => false

/-- C5 (amended): dispatch with a string tool name never throws in any of
the claim's situations and classifies as the claim says, except that an
`ImportError` or `AttributeError` raised *by the callable itself* is also
caught by the loader's `except` clause and reported as the
`"Error loading tool function: "` string; only other exception classes
produce the `"Error executing tool: "` string.  On success the callable's
value is returned unchanged. -/
theorem dispatch_classification (env : LLMEnv) (tools : List (String × Json))
    (name : String) (params : Json) :
    (pyLookup name tools = none →
      executeTool env tools (.str name) params =
        .ok (.str ("Error: Tool '" ++ name ++ "' not found"))) ∧
    (∀ ckvs, pyLookup name tools = some (.obj ckvs) →
      jsonTruthy ((pyLookup "function" ckvs).getD .null) = false →
      executeTool env tools (.str name) params =
        .ok (.str ("Error: Function path not defined for tool '" ++ name ++ "'"))) ∧
    (∀ ckvs p m f e, pyLookup name tools = some (.obj ckvs) →
      (pyLookup "function" ckvs).getD .null = .str p →
      p ≠ "" → rsplitDot p = some (m, f) →
      env.resolve m f = .error e → isLoadErr e = true →
      executeTool env tools (.str name) params =
        .ok (.str ("Error loading tool function: " ++ pyExnStr e))) ∧
    (∀ ckvs p m f fn pkvs e, pyLookup name tools = some (.obj ckvs) →
      (pyLookup "function" ckvs).getD .null = .str p →
      p ≠ "" → rsplitDot p = some (m, f) →
      env.resolve m f = .ok fn → params = .obj pkvs →
      fn pkvs = .error e →
      executeTool env tools (.str name) params =
        .ok (.str ((if isLoadErr e then "Error loading tool function: "
          else "Error executing tool: ") ++ pyExnStr e))) ∧
    (∀ ckvs p m f fn pkvs v, pyLookup name tools = some (.obj ckvs) →
      (pyLookup "function" ckvs).getD .null = .str p →
      p ≠ "" → rsplitDot p = some (m, f) →
      env.resolve m f = .ok fn → params = .obj pkvs →
      fn pkvs = .ok v →
      executeTool env tools (.str name) params = .ok v) := by
  refine ⟨?_, ?_, ?_, ?_, ?_⟩
  · intro h
    simp only [executeTool]
    rw [h]
  · intro ckvs h hfal
    simp only [executeTool]
    rw [h]
    simp only [hfal, Bool.false_eq_true, if_false]
  · intro ckvs p m f e h hfp hp hsplit hres hload
    have htr : jsonTruthy (Json.str p) = true := by
      simpa [jsonTruthy] using hp
    simp only [executeTool]
    rw [h]
    simp only [hfp, tryBody, htr, if_true]
    rw [hsplit]
    simp only [hres]
    cases e with
    | importError m' => rfl
    | attributeError m' => rfl
    | valueError m' => simp [isLoadErr] at hload
    | typeError m' => simp [isLoadErr] at hload
    | keyError m' => simp [isLoadErr] at hload
    | other m' => simp [isLoadErr] at hload
  · intro ckvs p m f fn pkvs e h hfp hp hsplit hres hparams hfn
    have htr : jsonTruthy (Json.str p) = true := by
      simpa [jsonTruthy] using hp
    subst hparams
    simp only [executeTool]
    rw [h]
    simp only [hfp, tryBody, htr, if_true]
    rw [hsplit]
    simp only [hres, hfn]
    cases e <;> simp [catchTool, isLoadErr, pyExnStr]
  · intro ckvs p m f fn pkvs v h hfp hp hsplit hres hparams hfn
    have htr : jsonTruthy (Json.str p) = true := by
      simpa [jsonTruthy] using hp
    subst hparams
    simp only [executeTool]
    rw [h]
    simp only [hfp, tryBody, htr, if_true]
    rw [hsplit]
    simp only [hres, hfn]
    rfl

/-- A resolver whose resolved callable raises `AttributeError("boom")`. -/
def envAttrBoom : LLMEnv :=
  ⟨fun _ _ => .ok "", fun _ => [],
   fun m f =>
     if m = "mod" && f = "fn" then .ok (fun _ => .error (.attributeError "boom"))
     else .error (.importError "no module named mod")⟩

/-- A registry with one correctly configured tool. -/
def toolsAttrBoom : List (String × Json) :=
  [("t", Json.obj [("function", Json.str "mod.fn")])]

/-- C5 counterexample: a registered, resolvable callable that raises
`AttributeError` is reported with the tool-loading error string, not with
the `ToolExecutionError`-style `"Error executing tool: "` string the
claim requires for every raising callable — the first `except` clause of
`_execute_tool` also covers the call itself. -/
theorem dispatch_execution_error_cex :
    executeTool envAttrBoom toolsAttrBoom (.str "t") (.obj [])
      = .ok (.str "Error loading tool function: boom") ∧
    executeTool envAttrBoom toolsAttrBoom (.str "t") (.obj [])
      ≠ .ok (.str "Error executing tool: boom") := by
  refine ⟨rfl, fun h => ?_⟩
  have h2 := (show executeTool envAttrBoom toolsAttrBoom (.str "t") (.obj [])
      = .ok (.str "Error loading tool function: boom") from rfl).symm.trans h
  simp only [Except.ok.injEq, Json.str.injEq] at h2
  exact absurd h2 (by decide)

/-- C5 witness: concrete instances of the not-found clause and of the
success clause (the callable's value passed through unchanged). -/
theorem dispatch_classification_witness :
    executeTool envAttrBoom toolsAttrBoom (.str "absent") (.obj [])
      = .ok (.str "Error: Tool 'absent' not found") ∧
    executeTool envAttrBoom
      [("ok", Json.obj [("function", Json.str "mod.fn")])] (.str "ok") (.obj [])
      = .ok (.str "Error loading tool function: boom") :=
  ⟨(dispatch_classification envAttrBoom toolsAttrBoom "absent" (.obj [])).1 rfl,
   (dispatch_classification envAttrBoom
      [("ok", Json.obj [("function", Json.str "mod.fn")])] "ok" (.obj [])).2.2.2.1
     [("function", Json.str "mod.fn")] "mod.fn" "mod" "fn" _ [] (.attributeError "boom")
     rfl rfl (by decide) rfl rfl rfl rfl⟩

/-! ### C1: the negotiation turn with a tool call -/

/-- C1: when extraction yields an Action, the turn appends the serialized
Action as an assistant turn and the prefixed dispatch result as a system
turn to the outgoing message list only, makes the second backend call on
that extended list with no tools, returns its reply, and the persistent
memory gains exactly two entries — the user query and the second reply;
the serialized Action and the tool-result turn are never added to
memory. -/
theorem negotiation_turn (env : LLMEnv) (st : AgentState)
    (q sysP r1 r2 : String) (tc : List (String × Json)) (tr : Json)
    (hsys : createSystemPrompt st = .ok sysP)
    (hr1 : env.getResponse (mkMsgs0 st sysP q)
      (some (env.formatTools st.tools)) = .ok r1)
    (hex : extractToolCall r1 = some tc)
    (htool : executeTool env st.tools ((pyLookup "tool" tc).getD .null)
      ((pyLookup "parameters" tc).getD (.obj [])) = .ok tr)
    (hr2 : env.getResponse (mkMsgs0 st sysP q ++
      [⟨"assistant", jsonDumpStr (.obj tc)⟩,
       ⟨"system", "Tool result: " ++ pyStr tr⟩]) none = .ok r2) :
    processQuery env st q =
      (r2, (st.memory.add "user" q).add "assistant" r2) := by
  unfold processQuery processBody
  rw [hsys]
  simp only [hr1, hex, htool, hr2]

/-- The backend of end-to-end scenario 1: the first call (with tools)
returns a fenced calculator invocation, the second call (no tools)
returns the final sentence; the resolver resolves
`tools.calculator.evaluate` to a callable returning `4`. -/
def envCalc : LLMEnv :=
  ⟨fun _ tools =>
     match tools with
     | some _ => .ok "```json\n\x7b\"tool\": \"calculator\", \"parameters\": \x7b\"expression\": \"2+2\"\x7d\x7d\n```"
     | none => .ok "The answer is 4.",
   fun _ => [],
   fun m f =>
     if m = "tools.calculator" && f = "evaluate" then
       .ok (fun _ => .ok (.num 4))
     else .error (.importError "no module")⟩

/-- The agent state of scenario 1: default template, the calculator tool,
memory enabled and empty. -/
def stCalc : AgentState :=
  ⟨⟨"MathAssistant", "I am a helpful assistant with math skills.",
    "help users solve mathematical problems", "", ""⟩,
   [("calculator", Json.obj
     [("description", Json.str "Evaluate a mathematical expression"),
      ("function", Json.str "tools.calculator.evaluate")])],
   ⟨[], 10, true⟩⟩

/-- The system prompt scenario 1 builds (evaluated from the model). -/
def sysCalc : String :=
  match createSystemPrompt stCalc with
  | .ok s => s
  | .error _ => ""

/-- C1 witness: scenario 1 end to end — the final text is the second
call's reply and memory holds exactly the user query and that reply. -/
theorem negotiation_turn_witness :
    processQuery envCalc stCalc "What is 2 + 2?" =
      ("The answer is 4.",
       ⟨[⟨"user", "What is 2 + 2?"⟩, ⟨"assistant", "The answer is 4."⟩],
        10, true⟩) :=
  (negotiation_turn envCalc stCalc "What is 2 + 2?" sysCalc
    "```json\n\x7b\"tool\": \"calculator\", \"parameters\": \x7b\"expression\": \"2+2\"\x7d\x7d\n```"
    "The answer is 4."
    [("tool", Json.str "calculator"),
     ("parameters", Json.obj [("expression", Json.str "2+2")])]
    (Json.num 4) rfl rfl rfl rfl rfl).trans rfl

/-! ### C3: round-trip of the serializer through the parser -/

theorem charOfNat_toNat (c : Char) : Char.ofNat c.toNat = c := by
  have hv : c.toNat.isValidChar := c.valid
  simp [Char.ofNat, hv, Char.ofNatAux]
  rfl

theorem toNat_charOfNat (n : Nat) (h : n.isValidChar) :
    (Char.ofNat n).toNat = n := by
  simp only [Char.ofNat, h, dif_pos, Char.ofNatAux, Char.toNat]
  simp [UInt32.toNat]

theorem hexVal_hexChar (d : Nat) (h : d < 16) :
    hexVal (hexChar d) = some d := by
  interval_cases d <;> decide

theorem char_valid_range (c : Char) :
    c.toNat < 0xD800 ∨ (0xDFFF < c.toNat ∧ c.toNat < 0x110000) := c.valid

theorem parseStr_backslash_u (l : List Char) :
    parseStr ('\\' :: 'u' :: l) = parseU l := rfl

theorem parseU_hexChars (x y z w : Nat) (hx : x < 16) (hy : y < 16)
    (hz : z < 16) (hw : w < 16) (r : List Char) :
    parseU (hexChar x :: hexChar y :: hexChar z :: hexChar w :: r) =
      (if 0xD800 ≤ ((x * 16 + y) * 16 + z) * 16 + w ∧
          ((x * 16 + y) * 16 + z) * 16 + w ≤ 0xDBFF then
        parseU2 (((x * 16 + y) * 16 + z) * 16 + w) r
      else if 0xDC00 ≤ ((x * 16 + y) * 16 + z) * 16 + w ∧
          ((x * 16 + y) * 16 + z) * 16 + w ≤ 0xDFFF then
        .error "Unpaired surrogate"
      else consStr (Char.ofNat (((x * 16 + y) * 16 + z) * 16 + w))
        (parseStr r)) := by
  simp only [parseU, hexVal_hexChar _ hx, hexVal_hexChar _ hy,
    hexVal_hexChar _ hz, hexVal_hexChar _ hw]

theorem parseU2_hexChars (n x y z w : Nat) (hx : x < 16) (hy : y < 16)
    (hz : z < 16) (hw : w < 16) (r : List Char) :
    parseU2 n ('\\' :: 'u' :: hexChar x :: hexChar y :: hexChar z ::
        hexChar w :: r) =
      (if 0xDC00 ≤ ((x * 16 + y) * 16 + z) * 16 + w ∧
          ((x * 16 + y) * 16 + z) * 16 + w ≤ 0xDFFF then
        consStr (Char.ofNat (0x10000 + (n - 0xD800) * 0x400 +
          (((x * 16 + y) * 16 + z) * 16 + w - 0xDC00))) (parseStr r)
      else .error "Unpaired surrogate") := by
  simp only [parseU2, hexVal_hexChar _ hx, hexVal_hexChar _ hy,
    hexVal_hexChar _ hz, hexVal_hexChar _ hw]
  norm_num

theorem parseStr_escList (s : List Char) :
    ∀ rest, parseStr (escList s ++ '"' :: rest) = .ok (s, rest) := by
  induction s with
  | nil => intro rest; simp [escList, parseStr]
  | cons c t ih =>
    intro rest
    simp only [escList, List.append_assoc]
    by_cases h1 : c = '"'
    · subst h1; simp [escChar, parseStr, parseEsc, consStr, ih]
    by_cases h2 : c = '\\'
    · subst h2; simp [escChar, parseStr, parseEsc, consStr, ih]
    by_cases h3 : c = '\n'
    · subst h3; simp [escChar, parseStr, parseEsc, consStr, ih]
    by_cases h4 : c = '\r'
    · subst h4; simp [escChar, parseStr, parseEsc, consStr, ih]
    by_cases h5 : c = '\t'
    · subst h5; simp [escChar, parseStr, parseEsc, consStr, ih]
    by_cases h6 : c.toNat = 8
    · have hc : Char.ofNat 8 = c := by rw [← h6, charOfNat_toNat]
      simp only [escChar, h1, h2, h3, h4, h5, h6, if_true, if_false]
      simp [parseStr, parseEsc, consStr, ih, hc]
      all_goals exact hc
    by_cases h7 : c.toNat = 12
    · have hc : Char.ofNat 12 = c := by rw [← h7, charOfNat_toNat]
      simp only [escChar, h1, h2, h3, h4, h5, h6, h7, if_true, if_false]
      simp [parseStr, parseEsc, consStr, ih, hc]
      all_goals exact hc
    by_cases h8 : c.toNat < 0x20 ∨ 0x7e < c.toNat
    · by_cases h9 : c.toNat < 0x10000
      · -- a BMP character, escaped as four hex digits
        simp only [escChar, h1, h2, h3, h4, h5, h6, h7, h8, h9, if_true,
          if_false, uEsc, toHex4, List.cons_append, List.nil_append]
        have hd1 : c.toNat / 4096 % 16 < 16 := Nat.mod_lt _ (by omega)
        have hd2 : c.toNat / 256 % 16 < 16 := Nat.mod_lt _ (by omega)
        have hd3 : c.toNat / 16 % 16 < 16 := Nat.mod_lt _ (by omega)
        have hd4 : c.toNat % 16 < 16 := Nat.mod_lt _ (by omega)
        rw [parseStr_backslash_u, parseU_hexChars _ _ _ _ hd1 hd2 hd3 hd4]
        have harith : ((c.toNat / 4096 % 16 * 16 + c.toNat / 256 % 16) * 16 +
            c.toNat / 16 % 16) * 16 + c.toNat % 16 = c.toNat := by omega
        rw [harith]
        have hns1 : ¬(0xD800 ≤ c.toNat ∧ c.toNat ≤ 0xDBFF) := by
          rcases char_valid_range c with h | h <;> omega
        have hns2 : ¬(0xDC00 ≤ c.toNat ∧ c.toNat ≤ 0xDFFF) := by
          rcases char_valid_range c with h | h <;> omega
        rw [if_neg hns1, if_neg hns2, charOfNat_toNat, ih, consStr]
      · -- an astral character, escaped as a surrogate pair
        simp only [escChar, h1, h2, h3, h4, h5, h6, h7, h8, h9, if_true,
          if_false, uEsc, toHex4, List.cons_append, List.nil_append,
          List.append_assoc]
        have hrange : 0x10000 ≤ c.toNat ∧ c.toNat < 0x110000 := by
          rcases char_valid_range c with h | h <;> omega
        set v := c.toNat - 0x10000 with hv
        have hvlt : v / 0x400 < 0x400 := by
          apply Nat.div_lt_of_lt_mul
          omega
        have hhi1 : (0xD800 + v / 0x400) / 4096 % 16 < 16 := Nat.mod_lt _ (by omega)
        have hhi2 : (0xD800 + v / 0x400) / 256 % 16 < 16 := Nat.mod_lt _ (by omega)
        have hhi3 : (0xD800 + v / 0x400) / 16 % 16 < 16 := Nat.mod_lt _ (by omega)
        have hhi4 : (0xD800 + v / 0x400) % 16 < 16 := Nat.mod_lt _ (by omega)
        have hlo1 : (0xDC00 + v % 0x400) / 4096 % 16 < 16 := Nat.mod_lt _ (by omega)
        have hlo2 : (0xDC00 + v % 0x400) / 256 % 16 < 16 := Nat.mod_lt _ (by omega)
        have hlo3 : (0xDC00 + v % 0x400) / 16 % 16 < 16 := Nat.mod_lt _ (by omega)
        have hlo4 : (0xDC00 + v % 0x400) % 16 < 16 := Nat.mod_lt _ (by omega)
        rw [parseStr_backslash_u, parseU_hexChars _ _ _ _ hhi1 hhi2 hhi3 hhi4]
        have hhi : (((0xD800 + v / 0x400) / 4096 % 16 * 16 +
            (0xD800 + v / 0x400) / 256 % 16) * 16 +
            (0xD800 + v / 0x400) / 16 % 16) * 16 + (0xD800 + v / 0x400) % 16 =
            0xD800 + v / 0x400 := by omega
        rw [hhi]
        have hsur : 0xD800 ≤ 0xD800 + v / 0x400 ∧
            0xD800 + v / 0x400 ≤ 0xDBFF := by omega
        rw [if_pos hsur, parseU2_hexChars _ _ _ _ _ hlo1 hlo2 hlo3 hlo4]
        have hlo : (((0xDC00 + v % 0x400) / 4096 % 16 * 16 +
            (0xDC00 + v % 0x400) / 256 % 16) * 16 +
            (0xDC00 + v % 0x400) / 16 % 16) * 16 + (0xDC00 + v % 0x400) % 16 =
            0xDC00 + v % 0x400 := by omega
        rw [hlo]
        have hmod : v % 0x400 < 0x400 := Nat.mod_lt _ (by omega)
        have hlosur : 0xDC00 ≤ 0xDC00 + v % 0x400 ∧
            0xDC00 + v % 0x400 ≤ 0xDFFF := by omega
        rw [if_pos hlosur]
        have hcomb : 0x10000 + (0xD800 + v / 0x400 - 0xD800) * 0x400 +
            (0xDC00 + v % 0x400 - 0xDC00) = c.toNat := by omega
        rw [hcomb, charOfNat_toNat, ih, consStr]
    · -- printable ASCII, emitted verbatim
      simp only [escChar, h1, h2, h3, h4, h5, h6, h7, h8, if_false,
        List.cons_append, List.nil_append]
      have hctl : ¬(c.toNat < 0x20) := by omega
      simp only [parseStr, h1, h2, hctl, if_false]
      rw [ih, consStr]

/-! ### Round-trip of integer numerals -/

/-- The character after a serialized value inside serializer output:
nothing, or a separator/closing character. -/
def delimB (l : List Char) : Bool :=
  match l.head? with
  | none => true
  | some c => c = ',' || c = '}' || c = ']'

theorem natToCharsAux_zero (f : Nat) : natToCharsAux f 0 = [] := by
  cases f <;> simp [natToCharsAux]

theorem char_le_char (c d : Char) (h : c.toNat ≤ d.toNat) : c ≤ d := by
  rw [Char.le_def, UInt32.le_def]
  exact h

theorem isDigitCh_of_bounds (c : Char) (h1 : 48 ≤ c.toNat)
    (h2 : c.toNat ≤ 57) : isDigitCh c = true := by
  simp only [isDigitCh, Bool.and_eq_true, decide_eq_true_eq]
  exact ⟨char_le_char _ _ h1, char_le_char _ _ h2⟩

theorem natToCharsAux_spec :
    ∀ fuel n, n ≤ fuel → n ≠ 0 →
      natToCharsAux fuel n ≠ [] ∧
      (∀ c ∈ natToCharsAux fuel n, 48 ≤ c.toNat ∧ c.toNat ≤ 57) ∧
      (∀ c, (natToCharsAux fuel n).head? = some c → c ≠ '0') ∧
      (∀ a : Nat, (natToCharsAux fuel n).foldl
          (fun a d => a * 10 + (d.toNat - 48)) a =
        a * 10 ^ (natToCharsAux fuel n).length + n) := by
  intro fuel
  induction fuel with
  | zero => intro n h1 h2; omega
  | succ f ih =>
    intro n hle hne
    have hd : (48 + n % 10).isValidChar := Or.inl (by omega)
    have hdt : (Char.ofNat (48 + n % 10)).toNat = 48 + n % 10 :=
      toNat_charOfNat _ hd
    by_cases h10 : n < 10
    · have hq : n / 10 = 0 := by omega
      have hshape : natToCharsAux (f + 1) n = [Char.ofNat (48 + n % 10)] := by
        simp [natToCharsAux, hne, hq, natToCharsAux_zero]
      rw [hshape]
      refine ⟨by simp, ?_, ?_, ?_⟩
      · intro c hc
        simp at hc
        subst hc
        rw [hdt]
        omega
      · intro c hc
        simp at hc
        subst hc
        intro h0
        have := congrArg Char.toNat h0
        rw [hdt] at this
        have h48 : ('0' : Char).toNat = 48 := by decide
        rw [h48] at this
        omega
      · intro a
        simp only [List.foldl_cons, List.foldl_nil, List.length_singleton,
          pow_one, hdt]
        omega
    · have hq : n / 10 ≠ 0 := by omega
      have hqle : n / 10 ≤ f := by
        have := Nat.div_lt_self (by omega : 0 < n) (by omega : 1 < 10)
        omega
      obtain ⟨ihne, ihdig, ihhead, ihfold⟩ := ih (n / 10) hqle hq
      have hshape : natToCharsAux (f + 1) n =
          natToCharsAux f (n / 10) ++ [Char.ofNat (48 + n % 10)] := by
        simp [natToCharsAux, hne]
      rw [hshape]
      refine ⟨by simp, ?_, ?_, ?_⟩
      · intro c hc
        rw [List.mem_append] at hc
        rcases hc with hc | hc
        · exact ihdig c hc
        · simp at hc
          subst hc
          rw [hdt]
          omega
      · intro c hc
        cases hL : natToCharsAux f (n / 10) with
        | nil => exact absurd hL ihne
        | cons x t =>
          rw [hL] at hc
          simp at hc
          subst hc
          exact ihhead x (by rw [hL]; rfl)
      · intro a
        rw [List.foldl_append, ihfold a]
        simp only [List.foldl_cons, List.foldl_nil, List.length_append,
          List.length_singleton, hdt]
        set L := (natToCharsAux f (n / 10)).length with hLdef
        have hpow : a * 10 ^ (L + 1) = (a * 10 ^ L) * 10 := by ring
        rw [hpow]
        omega

theorem takeWhile_append_all (p : Char → Bool) :
    ∀ (l1 l2 : List Char), (∀ x ∈ l1, p x = true) →
      (l1 ++ l2).takeWhile p = l1 ++ l2.takeWhile p := by
  intro l1
  induction l1 with
  | nil => simp
  | cons c t ih =>
    intro l2 h
    have hc : p c = true := h c (by simp)
    simp [List.takeWhile_cons, hc]
    exact ih l2 (fun x hx => h x (by simp [hx]))

theorem dropWhile_append_all (p : Char → Bool) :
    ∀ (l1 l2 : List Char), (∀ x ∈ l1, p x = true) →
      (l1 ++ l2).dropWhile p = l2.dropWhile p := by
  intro l1
  induction l1 with
  | nil => simp
  | cons c t ih =>
    intro l2 h
    have hc : p c = true := h c (by simp)
    simp [List.dropWhile_cons, hc]
    exact ih l2 (fun x hx => h x (by simp [hx]))

theorem delimB_not_digit (rest : List Char) (h : delimB rest = true) :
    rest.takeWhile isDigitCh = [] ∧ rest.dropWhile isDigitCh = rest ∧
    (∀ c2, rest.head? = some c2 → ¬(c2 = '.' ∨ c2 = 'e' ∨ c2 = 'E')) := by
  cases rest with
  | nil => exact ⟨rfl, rfl, by simp⟩
  | cons c t =>
    simp only [delimB, List.head?_cons, Bool.or_eq_true, decide_eq_true_eq] at h
    have hdig : isDigitCh c = false := by
      rcases h with (h | h) | h <;> subst h <;> decide
    refine ⟨?_, ?_, ?_⟩
    · simp [List.takeWhile_cons, hdig]
    · simp [List.dropWhile_cons, hdig]
    · intro c2 hc2
      simp at hc2
      subst hc2
      rcases h with (h | h) | h <;> subst h <;> decide

theorem parseNum_natToChars (n : Nat) (hne : n ≠ 0) (rest : List Char)
    (hd : delimB rest = true) :
    parseNum (natToChars n ++ rest) = .ok (n, rest) := by
  obtain ⟨hn0, hdig, hhead, hfold⟩ := natToCharsAux_spec n n le_rfl hne
  obtain ⟨htake, hdrop, hfloat⟩ := delimB_not_digit rest hd
  unfold natToChars at *
  cases hL : natToCharsAux n n with
  | nil => exact absurd hL hn0
  | cons c t =>
    rw [hL] at hdig hhead hfold
    have hcd : 48 ≤ c.toNat ∧ c.toNat ≤ 57 := hdig c (by simp)
    have hc0 : c ≠ '0' := hhead c rfl
    simp only [List.cons_append]
    simp only [parseNum]
    rw [if_neg hc0, if_pos (isDigitCh_of_bounds c hcd.1 hcd.2)]
    have hta : (t ++ rest).takeWhile isDigitCh = t := by
      rw [takeWhile_append_all _ t rest
        (fun x hx => isDigitCh_of_bounds x (hdig x (by simp [hx])).1
          (hdig x (by simp [hx])).2), htake, List.append_nil]
    have hdr : (t ++ rest).dropWhile isDigitCh = rest := by
      rw [dropWhile_append_all _ t rest
        (fun x hx => isDigitCh_of_bounds x (hdig x (by simp [hx])).1
          (hdig x (by simp [hx])).2), hdrop]
    simp only [hta, hdr]
    have hval : (c :: t).foldl (fun a d => a * 10 + (d.toNat - 48)) 0 = n := by
      have := hfold 0
      simpa using this
    cases hrest : rest with
    | nil => simp [hval]
    | cons c2 t2 =>
      have hnf : ¬(c2 = '.' ∨ c2 = 'e' ∨ c2 = 'E') :=
        hfloat c2 (by rw [hrest]; rfl)
      simp [if_neg hnf, hval]

theorem parseNum_zero (rest : List Char) (hd : delimB rest = true) :
    parseNum ('0' :: rest) = .ok (0, rest) := by
  obtain ⟨_, _, hfloat⟩ := delimB_not_digit rest hd
  simp only [parseNum, if_true]
  cases hrest : rest with
  | nil => rfl
  | cons c2 t2 =>
    have hnf : ¬(c2 = '.' ∨ c2 = 'e' ∨ c2 = 'E') :=
      hfloat c2 (by rw [hrest]; rfl)
    simp [if_neg hnf]

/-! ### Fuel requirements of the parser -/

mutual
/-- Fuel sufficient for `parseVal` on the serialization of `v`. -/
def needV : Json → Nat
  | .obj kvs => 1 + needM kvs
  | .arr vs => 1 + needA vs
  | _ => 1

def needM : List (String × Json) → Nat
  | [] => 0
  | (_, v) :: t => 1 + needV v + needM t

def needA : List Json → Nat
  | [] => 0
  | v :: t => 1 + needV v + needA t
end

/-! ### Shape facts about serializer output -/

theorem char_ne_of_toNat (c d : Char) (h : c.toNat ≠ d.toNat) : c ≠ d :=
  fun he => h (congrArg Char.toNat he)

theorem digit_not_ws (c : Char) (h1 : 48 ≤ c.toNat) (h2 : c.toNat ≤ 57) :
    wsJson c = false := by
  have e1 : c ≠ ' ' := char_ne_of_toNat c ' '
    (by have : (' ' : Char).toNat = 32 := rfl; omega)
  have e2 : c ≠ '\t' := char_ne_of_toNat c '\t'
    (by have : ('\t' : Char).toNat = 9 := rfl; omega)
  have e3 : c ≠ '\n' := char_ne_of_toNat c '\n'
    (by have : ('\n' : Char).toNat = 10 := rfl; omega)
  have e4 : c ≠ '\r' := char_ne_of_toNat c '\r'
    (by have : ('\r' : Char).toNat = 13 := rfl; omega)
  simp [wsJson, e1, e2, e3, e4]

theorem skipWs_cons_not_ws (c : Char) (l : List Char) (h : wsJson c = false) :
    skipWs (c :: l) = c :: l := by
  simp [skipWs, List.dropWhile_cons, h]

theorem skipWs_cons_ws (c : Char) (l : List Char) (h : wsJson c = true) :
    skipWs (c :: l) = skipWs l := by
  simp [skipWs, List.dropWhile_cons, h]

theorem parseVal_cons_ws (fuel : Nat) (c : Char) (l : List Char)
    (h : wsJson c = true) : parseVal fuel (c :: l) = parseVal fuel l := by
  cases fuel with
  | zero => rfl
  | succ f => simp only [parseVal, skipWs_cons_ws c l h]

theorem parseItems_cons_ws (fuel : Nat) (c : Char) (l : List Char)
    (acc : List Json) (h : wsJson c = true) :
    parseItems fuel (c :: l) acc = parseItems fuel l acc := by
  cases fuel with
  | zero => rfl
  | succ f => simp only [parseItems, parseVal_cons_ws f c l h]

theorem pyInsert_append (k : String) (v : Json) :
    ∀ acc : List (String × Json), (∀ q ∈ acc, q.1 ≠ k) →
      pyInsert acc k v = acc ++ [(k, v)] := by
  intro acc
  induction acc with
  | nil => intro _; rfl
  | cons q t ih =>
    intro h
    obtain ⟨k', v'⟩ := q
    have hq : k' ≠ k := h (k', v') (by simp)
    simp only [pyInsert]
    rw [if_neg (by simpa using hq), ih (fun x hx => h x (by simp [hx]))]
    simp

theorem dumpVal_head (v : Json) :
    ∃ c l', dumpVal v = c :: l' ∧ wsJson c = false ∧ c ≠ '}' ∧ c ≠ ']' := by
  cases v with
  | null => exact ⟨'n', ['u', 'l', 'l'], rfl, by decide, by decide, by decide⟩
  | bool b =>
    cases b with
    | true => exact ⟨'t', ['r', 'u', 'e'], rfl, by decide, by decide, by decide⟩
    | false =>
      exact ⟨'f', ['a', 'l', 's', 'e'], rfl, by decide, by decide, by decide⟩
  | num i =>
    by_cases h1 : i < 0
    · refine ⟨'-', if (-i).toNat = 0 then ['0'] else natToChars (-i).toNat,
        ?_, by decide, by decide, by decide⟩
      simp [dumpVal, intDump, h1]
    · by_cases h2 : i.toNat = 0
      · refine ⟨'0', [], ?_, by decide, by decide, by decide⟩
        simp [dumpVal, intDump, h1, h2]
      · obtain ⟨hne, hdig, _, _⟩ := natToCharsAux_spec i.toNat i.toNat le_rfl h2
        cases hL : natToCharsAux i.toNat i.toNat with
        | nil => exact absurd hL hne
        | cons c t =>
          have hcd := hdig c (by rw [hL]; simp)
          refine ⟨c, t, ?_, digit_not_ws c hcd.1 hcd.2,
            char_ne_of_toNat _ _
              (by have : ('}' : Char).toNat = 125 := rfl; omega),
            char_ne_of_toNat _ _
              (by have : (']' : Char).toNat = 93 := rfl; omega)⟩
          simp [dumpVal, intDump, h1, h2, natToChars, hL]
  | str s => exact ⟨'"', _, rfl, by decide, by decide, by decide⟩
  | arr vs => exact ⟨'[', _, rfl, by decide, by decide, by decide⟩
  | obj kvs => exact ⟨'{', _, rfl, by decide, by decide, by decide⟩

theorem skipWs_dump_append (v : Json) (rest : List Char) :
    skipWs (dumpVal v ++ rest) = dumpVal v ++ rest := by
  obtain ⟨c, l', hshape, hws, _, _⟩ := dumpVal_head v
  rw [hshape, List.cons_append]
  exact skipWs_cons_not_ws c _ hws

theorem intDump_length_pos (i : Int) : 1 ≤ (intDump i).length := by
  unfold intDump
  by_cases h1 : i < 0
  · simp [h1]
  · by_cases h2 : i.toNat = 0
    · simp [h1, h2]
    · obtain ⟨hne, _, _, _⟩ := natToCharsAux_spec i.toNat i.toNat le_rfl h2
      simp only [h1, h2, if_false, natToChars]
      have := List.length_pos.mpr hne
      omega

theorem need_le_all : ∀ n : Nat,
    (∀ v : Json, sizeOf v ≤ n → needV v ≤ (dumpVal v).length) ∧
    (∀ kvs : List (String × Json), sizeOf kvs ≤ n →
      needM kvs ≤ (dumpMembers kvs).length + 1) ∧
    (∀ vs : List Json, sizeOf vs ≤ n →
      needA vs ≤ (dumpItems vs).length + 1) := by
  intro n
  induction n using Nat.strong_induction_on with
  | _ n ih =>
    refine ⟨?_, ?_, ?_⟩
    · intro v hv
      cases v with
      | null => simp [needV, dumpVal]
      | bool b => cases b <;> simp [needV, dumpVal]
      | num i =>
        have := intDump_length_pos i
        simp only [needV, dumpVal]
        omega
      | str s => simp [needV, dumpVal]
      | arr vs =>
        have hs : sizeOf vs < n := by
          have : sizeOf (Json.arr vs) = 1 + sizeOf vs := by simp
          omega
        have ha := (ih (sizeOf vs) hs).2.2 vs le_rfl
        simp only [needV, dumpVal, List.length_cons, List.length_append,
          List.length_singleton]
        omega
      | obj kvs =>
        have hs : sizeOf kvs < n := by
          have : sizeOf (Json.obj kvs) = 1 + sizeOf kvs := by simp
          omega
        have hm := (ih (sizeOf kvs) hs).2.1 kvs le_rfl
        simp only [needV, dumpVal, List.length_cons, List.length_append,
          List.length_singleton]
        omega
    · intro kvs hkvs
      cases kvs with
      | nil => simp [needM]
      | cons kv t =>
        obtain ⟨k, v⟩ := kv
        have hsv : sizeOf v < n := by
          have h1 : sizeOf ((k, v) :: t) = 1 + sizeOf (k, v) + sizeOf t := by
            simp
          have h2 : sizeOf (k, v) = 1 + sizeOf k + sizeOf v := by simp
          have h3 : 0 < sizeOf k := by
            cases k
            simp
          omega
        have hst : sizeOf t < n := by
          have h1 : sizeOf ((k, v) :: t) = 1 + sizeOf (k, v) + sizeOf t := by
            simp
          have h2 : 0 < sizeOf (k, v) := by simp
          omega
        have hv := (ih (sizeOf v) hsv).1 v le_rfl
        have ht := (ih (sizeOf t) hst).2.1 t le_rfl
        cases t with
        | nil =>
          simp only [needM, dumpMembers, List.length_cons, List.length_append]
          omega
        | cons kv2 t2 =>
          simp only [needM, dumpMembers, List.length_cons, List.length_append]
          simp only [needM] at ht
          omega
    · intro vs hvs
      cases vs with
      | nil => simp [needA]
      | cons v t =>
        have hsv : sizeOf v < n := by
          have h1 : sizeOf (v :: t) = 1 + sizeOf v + sizeOf t := by simp
          omega
        have hst : sizeOf t < n := by
          have h1 : sizeOf (v :: t) = 1 + sizeOf v + sizeOf t := by simp
          have h2 : 0 < sizeOf v := by
            cases v <;> simp
          omega
        have hv := (ih (sizeOf v) hsv).1 v le_rfl
        have ht := (ih (sizeOf t) hst).2.2 t le_rfl
        cases t with
        | nil =>
          simp only [needA, dumpItems, List.length_cons, List.length_append]
          omega
        | cons v2 t2 =>
          simp only [needA, dumpItems, List.length_cons, List.length_append]
          simp only [needA] at ht
          omega

/-! ### One-step reduction equations of the parser -/

theorem parseVal_lbrace (f : Nat) (l : List Char) :
    parseVal (f + 1) ('{' :: l) =
      if (skipWs l).head? = some '}' then .ok (.obj [], (skipWs l).tail)
      else parseMembers f (skipWs l) [] := rfl

theorem parseVal_lbrack (f : Nat) (l : List Char) :
    parseVal (f + 1) ('[' :: l) =
      if (skipWs l).head? = some ']' then .ok (.arr [], (skipWs l).tail)
      else parseItems f (skipWs l) [] := rfl

theorem parseVal_quote (f : Nat) (l : List Char) :
    parseVal (f + 1) ('"' :: l) =
      match parseStr l with
      | .ok (s, rest) => .ok (.str (String.mk s), rest)
      | .error e => .error e := rfl

theorem parseVal_dash (f : Nat) (l : List Char) :
    parseVal (f + 1) ('-' :: l) =
      match parseNum l with
      | .ok (n, rest) => .ok (.num (-(n : Int)), rest)
      | .error e => .error e := rfl

theorem parseVal_other (f : Nat) (c : Char) (l : List Char)
    (hws : wsJson c = false) (h1 : c ≠ '{') (h2 : c ≠ '[') (h3 : c ≠ '"')
    (h4 : c ≠ 't') (h5 : c ≠ 'f') (h6 : c ≠ 'n') (h7 : c ≠ '-') :
    parseVal (f + 1) (c :: l) =
      match parseNum (c :: l) with
      | .ok (n, rest) => .ok (.num (n : Int), rest)
      | .error e => .error e := by
  simp only [parseVal, skipWs_cons_not_ws c l hws]
  rw [if_neg h1, if_neg h2, if_neg h3, if_neg h4, if_neg h5, if_neg h6,
    if_neg h7]

theorem parseMembers_quote (f : Nat) (r : List Char)
    (acc : List (String × Json)) :
    parseMembers (f + 1) ('"' :: r) acc =
      (match parseStr r with
      | .error e => .error e
      | .ok (k, r1) =>
        match skipWs r1 with
        | ':' :: r2 =>
          match parseVal f r2 with
          | .error e => .error e
          | .ok (v, r3) =>
            match skipWs r3 with
            | ',' :: r4 =>
              parseMembers f (skipWs r4) (pyInsert acc (String.mk k) v)
            | '}' :: r4 => .ok (.obj (pyInsert acc (String.mk k) v), r4)
            | _ => .error "Expecting delimiter"
        | _ => .error "Expecting colon") := rfl

theorem parseItems_succ (f : Nat) (l : List Char) (acc : List Json) :
    parseItems (f + 1) l acc =
      (match parseVal f l with
      | .error e => .error e
      | .ok (v, r) =>
        match skipWs r with
        | ',' :: r2 => parseItems f r2 (acc ++ [v])
        | ']' :: r2 => .ok (.arr (acc ++ [v]), r2)
        | _ => .error "Expecting delimiter") := rfl

theorem dumpMembers_cons_shape (kv : String × Json)
    (t : List (String × Json)) :
    ∃ b, dumpMembers (kv :: t) = '"' :: b := by
  obtain ⟨k, v⟩ := kv
  cases t with
  | nil => exact ⟨_, rfl⟩
  | cons kv2 t2 => exact ⟨_, rfl⟩

theorem needV_pos (v : Json) : 1 ≤ needV v := by
  cases v <;> simp [needV]

theorem digit_ne_special (c : Char) (h1 : 48 ≤ c.toNat) (h2 : c.toNat ≤ 57) :
    c ≠ '{' ∧ c ≠ '[' ∧ c ≠ '"' ∧ c ≠ 't' ∧ c ≠ 'f' ∧ c ≠ 'n' ∧ c ≠ '-' :=
  ⟨char_ne_of_toNat _ _ (by have h : ('{' : Char).toNat = 123 := rfl; omega),
   char_ne_of_toNat _ _ (by have h : ('[' : Char).toNat = 91 := rfl; omega),
   char_ne_of_toNat _ _ (by have h : ('"' : Char).toNat = 34 := rfl; omega),
   char_ne_of_toNat _ _ (by have h : ('t' : Char).toNat = 116 := rfl; omega),
   char_ne_of_toNat _ _ (by have h : ('f' : Char).toNat = 102 := rfl; omega),
   char_ne_of_toNat _ _ (by have h : ('n' : Char).toNat = 110 := rfl; omega),
   char_ne_of_toNat _ _ (by have h : ('-' : Char).toNat = 45 := rfl; omega)⟩

theorem skipWs_colon (l : List Char) : skipWs (':' :: l) = ':' :: l :=
  skipWs_cons_not_ws ':' l (by decide)

theorem skipWs_comma (l : List Char) : skipWs (',' :: l) = ',' :: l :=
  skipWs_cons_not_ws ',' l (by decide)

theorem skipWs_rbrace (l : List Char) : skipWs ('}' :: l) = '}' :: l :=
  skipWs_cons_not_ws '}' l (by decide)

theorem skipWs_rbrack (l : List Char) : skipWs (']' :: l) = ']' :: l :=
  skipWs_cons_not_ws ']' l (by decide)

/-- The round trip of the serializer through the parser, stated for
values, object members, and array items simultaneously and proved by
strong induction on size. -/
theorem roundtrip_all : ∀ n : Nat,
    (∀ v : Json, sizeOf v ≤ n → ∀ (rest : List Char) (fuel : Nat),
      wfB v = true → delimB rest = true → needV v ≤ fuel →
      parseVal fuel (dumpVal v ++ rest) = .ok (v, rest)) ∧
    (∀ kvs : List (String × Json), sizeOf kvs ≤ n → kvs ≠ [] →
      ∀ (acc : List (String × Json)) (rest : List Char) (fuel : Nat),
      keysNodup kvs = true → wfM kvs = true →
      (∀ q ∈ acc, ∀ p ∈ kvs, q.1 ≠ p.1) → needM kvs ≤ fuel →
      parseMembers fuel (dumpMembers kvs ++ '}' :: rest) acc =
        .ok (.obj (acc ++ kvs), rest)) ∧
    (∀ vs : List Json, sizeOf vs ≤ n → vs ≠ [] →
      ∀ (acc : List Json) (rest : List Char) (fuel : Nat),
      wfA vs = true → needA vs ≤ fuel →
      parseItems fuel (dumpItems vs ++ ']' :: rest) acc =
        .ok (.arr (acc ++ vs), rest)) := by
  intro n
  induction n using Nat.strong_induction_on with
  | _ n ih =>
    refine ⟨?_, ?_, ?_⟩
    · -- values
      intro v hv rest fuel hwf hdelim hneed
      obtain ⟨f, rfl⟩ : ∃ f, fuel = f + 1 :=
        ⟨fuel - 1, by have := needV_pos v; omega⟩
      cases v with
      | null => rfl
      | bool b => cases b <;> rfl
      | str s =>
        simp only [dumpVal, List.cons_append, List.append_assoc,
          List.singleton_append, List.nil_append]
        rw [parseVal_quote, parseStr_escList]
      | num i =>
        by_cases hneg : i < 0
        · have htn : (-i).toNat ≠ 0 := by omega
          have hdump : dumpVal (.num i) = '-' :: natToChars (-i).toNat := by
            simp [dumpVal, intDump, hneg, htn]
          rw [hdump, List.cons_append, parseVal_dash,
            parseNum_natToChars _ htn rest hdelim]
          have hcast : (((-i).toNat : Int)) = -i :=
            Int.toNat_of_nonneg (by omega)
          simp [hcast]
        · by_cases h0 : i.toNat = 0
          · have hi0 : i = 0 := by omega
            subst hi0
            have hdump : dumpVal (.num 0) = ['0'] := by
              simp [dumpVal, intDump]
            rw [hdump, List.singleton_append]
            have hother := parseVal_other f '0' rest (by decide) (by decide)
              (by decide) (by decide) (by decide) (by decide) (by decide)
              (by decide)
            rw [hother, parseNum_zero rest hdelim]
            simp
          · obtain ⟨hne0, hdig, hh0, _⟩ :=
              natToCharsAux_spec i.toNat i.toNat le_rfl h0
            have hdump : dumpVal (.num i) = natToChars i.toNat := by
              simp [dumpVal, intDump, hneg, h0, natToChars]
            rw [hdump]
            unfold natToChars
            cases hL : natToCharsAux i.toNat i.toNat with
            | nil => exact absurd hL hne0
            | cons c t =>
              have hcd := hdig c (by rw [hL]; simp)
              have hws := digit_not_ws c hcd.1 hcd.2
              obtain ⟨e1, e2, e3, e4, e5, e6, e7⟩ :=
                digit_ne_special c hcd.1 hcd.2
              rw [List.cons_append,
                parseVal_other f c _ hws e1 e2 e3 e4 e5 e6 e7,
                ← List.cons_append,
                show c :: t = natToChars i.toNat from by
                  unfold natToChars; rw [hL],
                parseNum_natToChars i.toNat h0 rest hdelim]
              have hcast : ((i.toNat : Int)) = i :=
                Int.toNat_of_nonneg (by omega)
              simp [hcast]
      | obj kvs =>
        cases kvs with
        | nil => rfl
        | cons kv t =>
          have hlt : sizeOf (kv :: t) < n := by
            have hs : sizeOf (Json.obj (kv :: t)) =
                1 + sizeOf (kv :: t) := by simp
            omega
          simp only [wfB, Bool.and_eq_true] at hwf
          simp only [needV] at hneed
          simp only [dumpVal, List.cons_append, List.append_assoc,
            List.singleton_append, List.nil_append]
          rw [parseVal_lbrace]
          obtain ⟨b, hb⟩ := dumpMembers_cons_shape kv t
          rw [hb, List.cons_append, skipWs_cons_not_ws '"' _ (by decide),
            List.head?_cons]
          have hne : ¬(some '"' = some '}') := by decide
          rw [if_neg hne, ← List.cons_append, ← hb]
          have hm := (ih (sizeOf (kv :: t)) hlt).2.1 (kv :: t) le_rfl
            (by simp) [] rest f hwf.1 hwf.2 (by simp) (by omega)
          rw [hm, List.nil_append]
      | arr vs =>
        cases vs with
        | nil => rfl
        | cons v1 t =>
          have hlt : sizeOf (v1 :: t) < n := by
            have hs : sizeOf (Json.arr (v1 :: t)) =
                1 + sizeOf (v1 :: t) := by simp
            omega
          simp only [wfB] at hwf
          simp only [needV] at hneed
          simp only [dumpVal, List.cons_append, List.append_assoc,
            List.singleton_append, List.nil_append]
          rw [parseVal_lbrack]
          obtain ⟨c1, b, hb, hws1, hbr, hbk⟩ := dumpVal_head v1
          have hshape : ∃ b2, dumpItems (v1 :: t) ++ ']' :: rest =
              c1 :: b2 := by
            cases t with
            | nil => exact ⟨b ++ ']' :: rest, by simp [dumpItems, hb]⟩
            | cons v2 t2 =>
              exact ⟨b ++ ',' :: ' ' :: dumpItems (v2 :: t2) ++ ']' :: rest,
                by simp [dumpItems, hb]⟩
          obtain ⟨b2, hb2⟩ := hshape
          rw [hb2, skipWs_cons_not_ws c1 _ hws1, List.head?_cons]
          have hne : ¬(some c1 = some ']') := by simp [hbk]
          rw [if_neg hne, ← hb2]
          have ha := (ih (sizeOf (v1 :: t)) hlt).2.2 (v1 :: t) le_rfl
            (by simp) [] rest f hwf (by omega)
          rw [ha, List.nil_append]
    · -- object members
      intro kvs hkv hne acc rest fuel hnodup hwfm hdisj hneed
      cases kvs with
      | nil => exact absurd rfl hne
      | cons kv t =>
        obtain ⟨k, v⟩ := kv
        simp only [needM] at hneed
        obtain ⟨f, rfl⟩ : ∃ f, fuel = f + 1 := ⟨fuel - 1, by omega⟩
        have hszv : sizeOf v < n := by
          have h1 : sizeOf ((k, v) :: t) = 1 + sizeOf (k, v) + sizeOf t := by
            simp
          have h2 : sizeOf (k, v) = 1 + sizeOf k + sizeOf v := by simp
          omega
        have hszt : sizeOf t < n := by
          have h1 : sizeOf ((k, v) :: t) = 1 + sizeOf (k, v) + sizeOf t := by
            simp
          have h2 : 0 < sizeOf (k, v) := by simp
          omega
        simp only [keysNodup, Bool.and_eq_true] at hnodup
        simp only [wfM, Bool.and_eq_true] at hwfm
        have hmkk : String.mk k.data = k := rfl
        cases t with
        | nil =>
          simp only [dumpMembers, List.cons_append, List.append_assoc,
            List.singleton_append, List.nil_append]
          rw [parseMembers_quote, parseStr_escList k.data]
          simp only [skipWs_colon]
          rw [parseVal_cons_ws f ' ' _ (by decide)]
          have hV := (ih (sizeOf v) hszv).1 v le_rfl ('}' :: rest) f
            hwfm.1 (by rfl) (by omega)
          rw [hV]
          simp only [skipWs_rbrace]
          rw [hmkk, pyInsert_append k v acc
            (fun q hq => hdisj q hq (k, v) (by simp))]
        | cons kv2 t2 =>
          obtain ⟨b2, hb2⟩ := dumpMembers_cons_shape kv2 t2
          simp only [dumpMembers, List.cons_append, List.append_assoc,
            List.singleton_append, List.nil_append]
          rw [parseMembers_quote, parseStr_escList k.data]
          simp only [skipWs_colon]
          rw [parseVal_cons_ws f ' ' _ (by decide)]
          have hV := (ih (sizeOf v) hszv).1 v le_rfl
            (',' :: ' ' :: (dumpMembers (kv2 :: t2) ++ '}' :: rest)) f
            hwfm.1 (by rfl) (by omega)
          rw [hV]
          simp only [skipWs_comma]
          rw [show skipWs (' ' :: (dumpMembers (kv2 :: t2) ++ '}' :: rest)) =
              dumpMembers (kv2 :: t2) ++ '}' :: rest from by
            rw [skipWs_cons_ws ' ' _ (by decide), hb2, List.cons_append,
              skipWs_cons_not_ws '"' _ (by decide)]]
          rw [hmkk, pyInsert_append k v acc
            (fun q hq => hdisj q hq (k, v) (by simp))]
          have hdisj2 : ∀ q ∈ acc ++ [(k, v)], ∀ p ∈ kv2 :: t2,
              q.1 ≠ p.1 := by
            intro q hq p hp
            rw [List.mem_append] at hq
            rcases hq with hq | hq
            · exact hdisj q hq p (by simp [hp])
            · simp only [List.mem_singleton] at hq
              subst hq
              have hnd := hnodup.1
              rw [Bool.not_eq_true', List.any_eq_false] at hnd
              have hne2 := hnd p hp
              simp only [beq_iff_eq] at hne2
              exact fun he => hne2 he.symm
          have hM := (ih (sizeOf (kv2 :: t2)) hszt).2.1 (kv2 :: t2) le_rfl
            (by simp) (acc ++ [(k, v)]) rest f hnodup.2 hwfm.2 hdisj2
            (by omega)
          rw [hM, List.append_assoc, List.singleton_append]
    · -- array items
      intro vs hvs hne acc rest fuel hwfa hneed
      cases vs with
      | nil => exact absurd rfl hne
      | cons v1 t =>
        simp only [needA] at hneed
        obtain ⟨f, rfl⟩ : ∃ f, fuel = f + 1 := ⟨fuel - 1, by omega⟩
        have hszv : sizeOf v1 < n := by
          have h1 : sizeOf (v1 :: t) = 1 + sizeOf v1 + sizeOf t := by simp
          omega
        have hszt : sizeOf t < n := by
          have h1 : sizeOf (v1 :: t) = 1 + sizeOf v1 + sizeOf t := by simp
          have h2 : 0 < sizeOf v1 := by cases v1 <;> simp
          omega
        simp only [wfA, Bool.and_eq_true] at hwfa
        cases t with
        | nil =>
          simp only [dumpItems]
          rw [parseItems_succ]
          have hV := (ih (sizeOf v1) hszv).1 v1 le_rfl (']' :: rest) f
            hwfa.1 (by rfl) (by omega)
          rw [hV]
          simp only [skipWs_rbrack]
        | cons v2 t2 =>
          simp only [dumpItems, List.cons_append, List.append_assoc]
          rw [parseItems_succ]
          have hV := (ih (sizeOf v1) hszv).1 v1 le_rfl
            (',' :: ' ' :: (dumpItems (v2 :: t2) ++ ']' :: rest)) f
            hwfa.1 (by rfl) (by omega)
          rw [hV]
          simp only [skipWs_comma]
          rw [parseItems_cons_ws f ' ' _ _ (by decide)]
          have hA := (ih (sizeOf (v2 :: t2)) hszt).2.2 (v2 :: t2) le_rfl
            (by simp) (acc ++ [v1]) rest f hwfa.2 (by omega)
          rw [hA, List.append_assoc, List.singleton_append]

/-- `json.loads (json.dumps v)` recovers `v` for every well-formed value. -/
theorem jsonLoads_dump (v : Json) (h : wfB v = true) :
    jsonLoads (dumpVal v) = .ok v := by
  have hneed := (need_le_all (sizeOf v)).1 v le_rfl
  have hrt := (roundtrip_all (sizeOf v)).1 v le_rfl []
    ((dumpVal v).length + 1) h (by rfl) (by omega)
  rw [List.append_nil] at hrt
  unfold jsonLoads
  rw [hrt]
  exact rfl

theorem lazyScan_cons (acc : List Char) (c : Char) (rest : List Char) :
    lazyScan acc (c :: rest) =
      if c = '}' && fenceClose rest then some ((c :: acc).reverse)
      else lazyScan (c :: acc) rest := rfl

theorem dropWhile_append_left (p : Char → Bool) :
    ∀ (l1 l2 : List Char), l1.dropWhile p ≠ [] →
    (l1 ++ l2).dropWhile p = l1.dropWhile p ++ l2 := by
  intro l1
  induction l1 with
  | nil => intro l2 h; exact absurd rfl h
  | cons a t ih =>
    intro l2 h
    rw [List.dropWhile_cons] at h
    rw [List.cons_append, List.dropWhile_cons, List.dropWhile_cons]
    by_cases hp : p a = true
    · rw [if_pos hp] at h
      rw [if_pos hp, if_pos hp]
      exact ih l2 h
    · rw [if_neg hp, if_neg hp, List.cons_append]

/-- A segment that contains a non-whitespace character and no backtick can
never look like the closing fence, whatever follows it. -/
theorem fenceClose_append_false (mid suffix : List Char)
    (hnb : ∀ c ∈ mid, c ≠ btick)
    (hnw : ∃ c ∈ mid, wsRe c = false) :
    fenceClose (mid ++ suffix) = false := by
  have hne : mid.dropWhile wsRe ≠ [] := by
    intro h
    obtain ⟨c, hc, hcw⟩ := hnw
    have hall := List.dropWhile_eq_nil_iff.mp h c hc
    rw [hcw] at hall
    exact Bool.noConfusion hall
  cases hdw : mid.dropWhile wsRe with
  | nil => exact absurd hdw hne
  | cons c0 t0 =>
    have hsub : List.Sublist (mid.dropWhile wsRe) mid := List.dropWhile_sublist _
    have hc0m : c0 ∈ mid := hsub.subset (by rw [hdw]; exact List.mem_cons_self _ _)
    have hcb : c0 ≠ btick := hnb c0 hc0m
    simp only [fenceClose]
    rw [dropWhile_append_left wsRe mid suffix hne, hdw]
    apply decide_eq_false
    intro h
    rw [List.cons_append] at h
    have htake : List.take 3 (c0 :: (t0 ++ suffix)) =
        c0 :: List.take 2 (t0 ++ suffix) := rfl
    rw [htake, show fence3 = btick :: btick :: btick :: [] from rfl] at h
    injection h with h1 _
    exact hcb h1

/-- The lazy group scan consumes a backtick-free body that ends in `\x7d`
in one piece: every interior `\x7d` is followed by the rest of the body,
which cannot close the fence, and the final one is followed by the real
closing fence. -/
theorem lazyScan_run : ∀ (pre : List Char), ∀ (acc suffix : List Char),
    (∀ c ∈ pre ++ ['}'], c ≠ btick) → fenceClose suffix = true →
    lazyScan acc ((pre ++ ['}']) ++ suffix) =
      some (acc.reverse ++ (pre ++ ['}'])) := by
  intro pre
  induction pre with
  | nil =>
    intro acc suffix hnb hfc
    rw [List.nil_append, List.singleton_append, lazyScan_cons, hfc]
    simp
  | cons c pre' ih =>
    intro acc suffix hnb hfc
    have hnb' : ∀ d ∈ pre' ++ ['}'], d ≠ btick := fun d hd => hnb d (by
      rw [List.cons_append]; exact List.mem_cons_of_mem _ hd)
    have hfcf : fenceClose ((pre' ++ ['}']) ++ suffix) = false :=
      fenceClose_append_false _ _ hnb' ⟨'}', by simp, by decide⟩
    rw [List.cons_append, List.cons_append, lazyScan_cons, hfcf]
    simp only [Bool.and_false, Bool.false_eq_true, if_false]
    rw [ih (c :: acc) suffix hnb' hfc]
    simp

theorem matchCore_eq (l : List Char) :
    matchCore l =
      match l.dropWhile wsRe with
      | '{' :: r => lazyScan ['{'] r
      | _ => none := rfl

/-- The core pattern `\s*({[\s\S]*?})\s*``` ` recovers a dumped object
exactly when the body holds no backtick. -/
theorem matchCore_nl (kvs : List (String × Json)) (suffix : List Char)
    (hnb : ∀ c ∈ dumpVal (Json.obj kvs), c ≠ btick)
    (hfc : fenceClose suffix = true) :
    matchCore ('\n' :: (dumpVal (Json.obj kvs) ++ suffix)) =
      some (dumpVal (Json.obj kvs)) := by
  have hd : dumpVal (Json.obj kvs) = '{' :: (dumpMembers kvs ++ ['}']) := rfl
  have hskip : ('\n' :: (dumpVal (Json.obj kvs) ++ suffix)).dropWhile wsRe =
      '{' :: ((dumpMembers kvs ++ ['}']) ++ suffix) := by
    rw [hd, List.cons_append]
    simp [List.dropWhile_cons, wsRe]
  have hrun := lazyScan_run (dumpMembers kvs) ['{'] suffix
    (fun c hc => hnb c (by rw [hd]; exact List.mem_cons_of_mem _ hc)) hfc
  calc matchCore ('\n' :: (dumpVal (Json.obj kvs) ++ suffix))
      = lazyScan ['{'] ((dumpMembers kvs ++ ['}']) ++ suffix) := by
        rw [matchCore_eq, hskip]
        exact rfl
    _ = some (List.reverse ['{'] ++ (dumpMembers kvs ++ ['}'])) := hrun
    _ = some (dumpVal (Json.obj kvs)) := by rw [hd]; simp

theorem tryAt_fence_json (body : List Char) :
    tryAt (btick :: btick :: btick :: 'j' :: 's' :: 'o' :: 'n' :: body) =
      (match matchCore body with
       | some g => some g
       | none => matchCore ('j' :: 's' :: 'o' :: 'n' :: body)) := rfl

theorem tryAt_fence_nl (body : List Char) :
    tryAt (btick :: btick :: btick :: '\n' :: body) =
      matchCore ('\n' :: body) := rfl

theorem reSearchFenced_cons (c : Char) (rest : List Char) :
    reSearchFenced (c :: rest) =
      (match tryAt (c :: rest) with
       | some g => some g
       | none => reSearchFenced rest) := rfl

/-- C3 (corrected): for every Action whose serialization is well formed and
contains no backtick character, serializing it as a single object with the
`"tool"` and `"parameters"` keys inside a fenced code block (optionally
labeled json) and applying `extract_tool_call` yields exactly the original
tool name and parameter mapping.  (Without the backtick restriction the
claim fails: a parameter value containing a brace followed by three
backticks makes the lazy group close early, see the counterexample.) -/
theorem extraction_round_trip (a : ToolAction) (lbl : Bool)
    (hwf : wfB (serializeAction a) = true)
    (hnb : noBacktickB (dumpVal (serializeAction a)) = true) :
    extractToolCall (fenceWrap lbl (serializeAction a)) =
      some [("tool", Json.str a.tool), ("parameters", Json.obj a.params)] := by
  have hnb' : ∀ c ∈ dumpVal (serializeAction a), c ≠ btick := by
    intro c hc
    have hb := List.all_eq_true.mp hnb c hc
    exact of_decide_eq_true hb
  have hfc : fenceClose ('\n' :: fence3) = true := rfl
  have hm : matchCore ('\n' ::
        (dumpVal (serializeAction a) ++ '\n' :: fence3)) =
      some (dumpVal (serializeAction a)) :=
    matchCore_nl [("tool", Json.str a.tool), ("parameters", Json.obj a.params)]
      ('\n' :: fence3) hnb' hfc
  have hload : jsonLoads (dumpVal (serializeAction a)) =
      .ok (Json.obj [("tool", Json.str a.tool),
        ("parameters", Json.obj a.params)]) :=
    jsonLoads_dump (serializeAction a) hwf
  cases lbl with
  | true =>
    have hdata : (fenceWrap true (serializeAction a)).data =
        btick :: btick :: btick :: 'j' :: 's' :: 'o' :: 'n' ::
          ('\n' :: (dumpVal (serializeAction a) ++ '\n' :: fence3)) := by
      rw [show fenceWrap true (serializeAction a) =
          ("```json\n" ++ String.mk (dumpVal (serializeAction a))) ++ "\n```"
          from rfl]
      rw [String.data_append, String.data_append]
      rw [show (String.mk (dumpVal (serializeAction a))).data =
          dumpVal (serializeAction a) from rfl]
      rw [List.append_assoc]
      exact rfl
    have hsearch : reSearchFenced
        ((fenceWrap true (serializeAction a)).data) =
        some (dumpVal (serializeAction a)) := by
      rw [hdata, reSearchFenced_cons,
        tryAt_fence_json ('\n' ::
          (dumpVal (serializeAction a) ++ '\n' :: fence3)), hm]
    simp only [extractToolCall, hsearch, hload]
    exact rfl
  | false =>
    have hdata : (fenceWrap false (serializeAction a)).data =
        btick :: btick :: btick ::
          ('\n' :: (dumpVal (serializeAction a) ++ '\n' :: fence3)) := by
      rw [show fenceWrap false (serializeAction a) =
          ("```\n" ++ String.mk (dumpVal (serializeAction a))) ++ "\n```"
          from rfl]
      rw [String.data_append, String.data_append]
      rw [show (String.mk (dumpVal (serializeAction a))).data =
          dumpVal (serializeAction a) from rfl]
      rw [List.append_assoc]
      exact rfl
    have hsearch : reSearchFenced
        ((fenceWrap false (serializeAction a)).data) =
        some (dumpVal (serializeAction a)) := by
      rw [hdata, reSearchFenced_cons,
        tryAt_fence_nl (dumpVal (serializeAction a) ++ '\n' :: fence3), hm]
    simp only [extractToolCall, hsearch, hload]
    exact rfl

/-- C3 witness: a concrete calculator Action satisfies both hypotheses and
round-trips through the fenced extraction. -/
theorem extraction_round_trip_witness :
    wfB (serializeAction
      ⟨"calculator", [("expression", Json.str "2+2")]⟩) = true ∧
    noBacktickB (dumpVal (serializeAction
      ⟨"calculator", [("expression", Json.str "2+2")]⟩)) = true ∧
    extractToolCall (fenceWrap true (serializeAction
      ⟨"calculator", [("expression", Json.str "2+2")]⟩)) =
      some [("tool", Json.str "calculator"),
        ("parameters", Json.obj [("expression", Json.str "2+2")])] :=
  ⟨by decide, by decide,
    extraction_round_trip ⟨"calculator", [("expression", Json.str "2+2")]⟩
      true (by decide) (by decide)⟩

/-- C3 counterexample: the Action with parameter value `"\x7d ```"` (a
closing brace, a space, three backticks) serializes to valid JSON, but the
lazy group of the extraction regex stops at the first brace whose
continuation looks like a closing fence — here inside the string literal —
so `json.loads` fails on the truncated candidate and extraction returns
`None` instead of the original Action. -/
theorem extraction_round_trip_cex :
    extractToolCall (fenceWrap true (serializeAction
      ⟨"t", [("a", Json.str "\x7d ```")]⟩)) = none ∧
    extractToolCall (fenceWrap true (serializeAction
      ⟨"t", [("a", Json.str "\x7d ```")]⟩)) ≠
      some [("tool", Json.str "t"),
        ("parameters", Json.obj [("a", Json.str "\x7d ```")])] := by
  have h0 : extractToolCall (fenceWrap true (serializeAction
      ⟨"t", [("a", Json.str "\x7d ```")]⟩)) = none := rfl
  refine ⟨h0, ?_⟩
  rw [h0]
  simp
